import Mathlib

/-!
Shallow embedding of the QuizzlerV2 survey-settlement contract
(create / cancel / pay-rewards message handling, proof validation,
replay-protected one-time tokens) and proofs of the spec's claims.

Modelling conventions:
* `Address` and 32-byte values are `Nat`; the zero address is `0`.
* `keccak256(abi.encodePacked(...))` is modelled by the inductive type
  `Digest`, one constructor per distinct packing shape; `Digest.null`
  stands for `bytes32(0)`.  Constructors are injective and mutually
  distinct, the standard collision-free model of a cryptographic hash.
* ECDSA recovery is an uninterpreted function `recover` carried in the
  call context `Ctx`.
* Solidity `revert` is `Except.error`; an EVM transaction that reverts
  leaves storage unchanged, which `applyEnvelope` makes explicit by
  returning the pre-state on error.
* ERC20 `transfer` calls are recorded as `Event.transfer` entries.
-/

abbrev Address := Nat
abbrev B32 := Nat

/-- One constructor per `abi.encodePacked` shape hashed in the contract
(`createProof`, `cancelProof`, `rewardProof`); `null` is `bytes32(0)`. -/
inductive Digest where
  | null : Digest
  | createD (chainId : Nat) (token : B32) (timeToExpire : Nat) (owner : Address)
      (surveyId : String) (participantsLimit rewardAmount : Nat)
      (surveyHash : B32) (amountToGasStation : Nat) : Digest
  | cancelD (chainId : Nat) (token : B32) (timeToExpire : Nat) (surveyId : String) : Digest
  | rewardD (chainId : Nat) (token : B32) (timeToExpire : Nat)
      (surveyIdsLen participantsLen : Nat) : Digest
deriving DecidableEq, Repr

/-- Mirror of the `SurveyStruct` storage struct. -/
structure SurveyStruct where
  surveyCreator : Address
  participantsLimit : Nat
  rewardAmount : Nat
  participantsRewarded : Nat
  surveyHash : B32
  rewardToken : Address
  isCanceled : Bool
deriving DecidableEq, Repr

/-- A Solidity mapping returns the all-zero struct for absent keys. -/
def SurveyStruct.empty : SurveyStruct :=
  { surveyCreator := 0, participantsLimit := 0, rewardAmount := 0,
    participantsRewarded := 0, surveyHash := 0, rewardToken := 0, isCanceled := false }

instance : Inhabited SurveyStruct := ⟨SurveyStruct.empty⟩

/-- Contract storage: the four mappings plus the gas-station address. -/
structure QState where
  managers : Address → Bool
  surveys : String → SurveyStruct
  surveysUsersRewarded : String → Address → Bool
  proofTokens : B32 → Bool
  gasStation : Address

/-- Custom errors of the contract (the ones reachable in the modelled flow). -/
inductive Err where
  | wrongSource | noTokens | wrongSender | wrongMsgId
  | invalidSigner | surveyExists | invalidRewardAmount | invalidTrxValue
  | surveyDoesNotExist | surveyAlreadyCanceled | onlyCreatorOrManager
  | allParticipantsRewarded | arrayLengthMismatch | userAlreadyRewarded
  | invalidMessageHash | tokenAlreadyUsed | proofExpired | zeroAddress
deriving DecidableEq, Repr

/-- Observable effects: emitted events and ERC20 transfers, in order. -/
inductive Event where
  | surveyCreated (surveyId : String) (creator : Address)
      (participantsLimit rewardAmount : Nat) (surveyHash : B32)
  | rewardPaid (participant : Address) (surveyId : String) (amount : Nat)
  | surveyFinished (surveyId : String)
  | surveyCanceled (surveyId : String)
  | executeCompleted (msgId : Nat)
  | transfer (token : Address) (toAddr : Address) (amount : Nat)
deriving DecidableEq, Repr

/-- Per-call environment: chain id, trusted remote sender string,
gateway token-address lookup, ECDSA recovery (through
`toEthSignedMessageHash`, kept abstract), `block.timestamp`, `msg.sender`. -/
structure Ctx where
  chainId : Nat
  trustedSender : String
  tokenAddresses : String → Address
  recover : Digest → Nat → Address
  blockTimestamp : Nat
  msgSender : Address

/-- `createProof`: null when the token was consumed, otherwise the packed digest. -/
def createProof (ctx : Ctx) (s : QState) (token : B32) (timeToExpire : Nat)
    (owner : Address) (surveyId : String) (participantsLimit rewardAmount : Nat)
    (surveyHash : B32) (amountToGasStation : Nat) : Digest :=
  if s.proofTokens token then Digest.null
  else Digest.createD ctx.chainId token timeToExpire owner surveyId
    participantsLimit rewardAmount surveyHash amountToGasStation

/-- `cancelProof`. -/
def cancelProof (ctx : Ctx) (s : QState) (token : B32) (timeToExpire : Nat)
    (surveyId : String) : Digest :=
  if s.proofTokens token then Digest.null
  else Digest.cancelD ctx.chainId token timeToExpire surveyId

/-- `rewardProof`: note only the two array *lengths* enter the packing. -/
def rewardProof (ctx : Ctx) (s : QState) (token : B32) (timeToExpire : Nat)
    (surveyIds : List String) (participantsEncoded : List Address) : Digest :=
  if s.proofTokens token then Digest.null
  else Digest.rewardD ctx.chainId token timeToExpire
    surveyIds.length participantsEncoded.length

/-- `getSigner`: ECDSA recovery over the eth-signed-message wrapping, abstract. -/
def getSigner (ctx : Ctx) (message : Digest) (signature : Nat) : Address :=
  ctx.recover message signature

/-- `getSurveyAmountToFund`. -/
def getSurveyAmountToFund (s : QState) (surveyId : String) : Nat :=
  (s.surveys surveyId).participantsLimit * (s.surveys surveyId).rewardAmount

/-- `getSurveysRewardsAmountPayded`. -/
def getSurveysRewardsAmountPayded (s : QState) (surveyId : String) : Nat :=
  (s.surveys surveyId).participantsRewarded * (s.surveys surveyId).rewardAmount

/-- `preAuthValidations`: on success returns the signer together with the
state in which the token is marked consumed; each `revert` is an error. -/
def preAuthValidations (ctx : Ctx) (s : QState) (message : Digest) (token : B32)
    (timeToExpire : Nat) (signature : Nat) : Except Err (Address × QState) :=
  if message = Digest.null then .error .invalidMessageHash
  else if s.proofTokens token then .error .tokenAlreadyUsed
  else if timeToExpire < ctx.blockTimestamp then .error .proofExpired
  else
    let signer := getSigner ctx message signature
    if signer = 0 then .error .zeroAddress
    else .ok (signer, { s with proofTokens := fun t => if t = token then true else s.proofTokens t })

/-- `_handleCreateSurvey` on the already-decoded payload fields. -/
def handleCreateSurvey (ctx : Ctx) (s : QState) (signature : Nat) (token : B32)
    (timeToExpire : Nat) (owner : Address) (surveyId : String)
    (participantsLimit rewardAmount : Nat) (surveyHash : B32)
    (amountToGasStation : Nat) (amount : Nat) (tokenAddress : Address) :
    Except Err (QState × List Event) :=
  let message := createProof ctx s token timeToExpire owner surveyId
    participantsLimit rewardAmount surveyHash amountToGasStation
  match preAuthValidations ctx s message token timeToExpire signature with
  | .error e => .error e
  | .ok (signer, s1) =>
    if s1.managers signer = false then .error .invalidSigner
    else if (s1.surveys surveyId).surveyCreator ≠ 0 then .error .surveyExists
    else
      let sv : SurveyStruct :=
        { surveyCreator := ctx.msgSender, participantsLimit := participantsLimit,
          rewardAmount := rewardAmount, participantsRewarded := 0,
          surveyHash := surveyHash, rewardToken := tokenAddress, isCanceled := false }
      let s2 : QState := { s1 with surveys := fun i => if i = surveyId then sv else s1.surveys i }
      let amountToSurvey := participantsLimit * rewardAmount
      if amount ≠ amountToSurvey + amountToGasStation then .error .invalidTrxValue
      else if amountToSurvey ≠ getSurveyAmountToFund s2 surveyId then .error .invalidRewardAmount
      else .ok (s2,
        [Event.transfer tokenAddress s2.gasStation amountToGasStation,
         Event.surveyCreated surveyId ctx.msgSender participantsLimit rewardAmount surveyHash])

/-- `_handleCancelSurvey`. -/
def handleCancelSurvey (ctx : Ctx) (s : QState) (signature : Nat) (token : B32)
    (timeToExpire : Nat) (surveyId : String) : Except Err (QState × List Event) :=
  if (s.surveys surveyId).surveyCreator = 0 then .error .surveyDoesNotExist
  else if (s.surveys surveyId).isCanceled then .error .surveyAlreadyCanceled
  else if ctx.msgSender ≠ (s.surveys surveyId).surveyCreator ∧ s.managers ctx.msgSender = false then
    .error .onlyCreatorOrManager
  else if (s.surveys surveyId).participantsLimit ≤ (s.surveys surveyId).participantsRewarded then
    .error .allParticipantsRewarded
  else
    let message := cancelProof ctx s token timeToExpire surveyId
    match preAuthValidations ctx s message token timeToExpire signature with
    | .error e => .error e
    | .ok (signer, s1) =>
      if s1.managers signer = false then .error .invalidSigner
      else
        let returnAmount := getSurveyAmountToFund s1 surveyId - getSurveysRewardsAmountPayded s1 surveyId
        let s2 : QState := { s1 with surveys := fun i =>
          if i = surveyId then { s1.surveys surveyId with isCanceled := true } else s1.surveys i }
        .ok (s2,
          [Event.transfer (s1.surveys surveyId).rewardToken (s1.surveys surveyId).surveyCreator returnAmount,
           Event.surveyCanceled surveyId])

/-- The `for` loop of `_handleRewardPayment`, over the zipped item list. -/
def rewardLoop (s : QState) : List (String × Address) → Except Err (QState × List Event)
  | [] => .ok (s, [])
  | (surveyId, participant) :: rest =>
    let sv := s.surveys surveyId
    if sv.isCanceled then .error .surveyAlreadyCanceled
    else if sv.participantsLimit ≤ sv.participantsRewarded then .error .allParticipantsRewarded
    else if s.surveysUsersRewarded surveyId participant then .error .userAlreadyRewarded
    else
      let s1 : QState := { s with
        surveys := fun i => if i = surveyId
          then { sv with participantsRewarded := sv.participantsRewarded + 1 } else s.surveys i,
        surveysUsersRewarded := fun i a =>
          if i = surveyId then (if a = participant then true else s.surveysUsersRewarded i a)
          else s.surveysUsersRewarded i a }
      let evs : List Event :=
        [Event.transfer sv.rewardToken participant sv.rewardAmount,
         Event.rewardPaid participant surveyId sv.rewardAmount]
        ++ (if sv.participantsRewarded + 1 = sv.participantsLimit
            then [Event.surveyFinished surveyId] else [])
      match rewardLoop s1 rest with
      | .error e => .error e
      | .ok (s2, evs2) => .ok (s2, evs ++ evs2)

/-- `_handleRewardPayment`. -/
def handleRewardPayment (ctx : Ctx) (s : QState) (signature : Nat) (token : B32)
    (timeToExpire : Nat) (surveyIds : List String) (participantsEncoded : List Address) :
    Except Err (QState × List Event) :=
  if surveyIds.length ≠ participantsEncoded.length then .error .arrayLengthMismatch
  else
    let message := rewardProof ctx s token timeToExpire surveyIds participantsEncoded
    match preAuthValidations ctx s message token timeToExpire signature with
    | .error e => .error e
    | .ok (signer, s1) =>
      if s1.managers signer = false then .error .invalidSigner
      else rewardLoop s1 (surveyIds.zip participantsEncoded)

/-- Decoded payloads; the leading `uint256` discriminant is the constructor
(0 = create, 1 = cancel, 2 = pay-rewards). -/
inductive Payload where
  | create (signature : Nat) (token : B32) (timeToExpire : Nat) (owner : Address)
      (surveyId : String) (participantsLimit rewardAmount : Nat)
      (surveyHash : B32) (amountToGasStation : Nat)
  | cancel (signature : Nat) (token : B32) (timeToExpire : Nat) (surveyId : String)
  | payRewards (signature : Nat) (token : B32) (timeToExpire : Nat)
      (surveyIds : List String) (participantsEncoded : List Address)
deriving DecidableEq, Repr

/-- `_executeWithToken`: the token-bearing Axelar delivery path.  The
source-chain / source-address keccak comparisons are modelled as string
equality (injective hash). -/
def executeWithToken (ctx : Ctx) (s : QState) (sourceChain sourceAddress : String)
    (payload : Payload) (tokenSymbol : String) (amount : Nat) :
    Except Err (QState × List Event) :=
  if sourceChain ≠ "agoric" then .error .wrongSource
  else if sourceAddress ≠ ctx.trustedSender then .error .wrongSender
  else if 0 < amount then .error .noTokens
  else
    let tokenAddress := ctx.tokenAddresses tokenSymbol
    match payload with
    | .create signature token timeToExpire owner surveyId participantsLimit
        rewardAmount surveyHash amountToGasStation =>
      match handleCreateSurvey ctx s signature token timeToExpire owner surveyId
          participantsLimit rewardAmount surveyHash amountToGasStation amount tokenAddress with
      | .error e => .error e
      | .ok (s1, evs) => .ok (s1, evs ++ [Event.executeCompleted 0])
    | _ => .error .wrongMsgId

/-- `_execute`: the plain (no-token) Axelar delivery path. -/
def executeNoToken (ctx : Ctx) (s : QState) (sourceChain sourceAddress : String)
    (payload : Payload) : Except Err (QState × List Event) :=
  if sourceChain ≠ "agoric" then .error .wrongSource
  else if sourceAddress ≠ ctx.trustedSender then .error .wrongSender
  else
    match payload with
    | .cancel signature token timeToExpire surveyId =>
      match handleCancelSurvey ctx s signature token timeToExpire surveyId with
      | .error e => .error e
      | .ok (s1, evs) => .ok (s1, evs ++ [Event.executeCompleted 1])
    | .payRewards signature token timeToExpire surveyIds participantsEncoded =>
      match handleRewardPayment ctx s signature token timeToExpire surveyIds participantsEncoded with
      | .error e => .error e
      | .ok (s1, evs) => .ok (s1, evs ++ [Event.executeCompleted 2])
    | .create _ _ _ _ _ _ _ _ _ => .error .wrongMsgId

/-- One inbound cross-chain envelope; `withToken` selects the delivery path. -/
structure Envelope where
  sourceChain : String
  sourceAddress : String
  payload : Payload
  withToken : Bool
  tokenSymbol : String
  amount : Nat

/-- Run one envelope with EVM transaction semantics: on revert the storage
is rolled back (the pre-state is returned) and no events are emitted. -/
def applyEnvelope (ctx : Ctx) (s : QState) (e : Envelope) :
    QState × List Event × Option Err :=
  match (if e.withToken
    then executeWithToken ctx s e.sourceChain e.sourceAddress e.payload e.tokenSymbol e.amount
    else executeNoToken ctx s e.sourceChain e.sourceAddress e.payload) with
  | .ok (s1, evs) => (s1, evs, none)
  | .error err => (s, [], some err)

/-- Run a sequence of envelopes, each with its own call context,
collecting the events of the non-reverted ones. -/
def runTrace (s : QState) : List (Ctx × Envelope) → QState × List Event
  | [] => (s, [])
  | (ctx, e) :: rest =>
    let r := applyEnvelope ctx s e
    let r2 := runTrace r.1 rest
    (r2.1, r.2.1 ++ r2.2)

/-- A deployed contract before any survey activity: arbitrary manager set
and gas station, no surveys, no rewarded users, no consumed tokens. -/
def startState (m0 : Address → Bool) (gs : Address) : QState :=
  { managers := m0, surveys := fun _ => SurveyStruct.empty,
    surveysUsersRewarded := fun _ _ => false,
    proofTokens := fun _ => false, gasStation := gs }

/-- A call context: manager recovery yields address 7, caller is address 9. -/
def ctx0 : Ctx :=
  { chainId := 1, trustedSender := "qstn", tokenAddresses := fun _ => 55,
    recover := fun _ _ => 7, blockTimestamp := 100, msgSender := 9 }

/-- Fresh deployment whose only manager is address 7, gas station 3. -/
def s0 : QState := startState (fun a => a == 7) 3

/-- The business-state checks of `_handleCancelSurvey`, in the order the
code evaluates them, all placed before proof validation; `none` means they
all pass. -/
def cancelBusinessErr (s : QState) (sender : Address) (surveyId : String) : Option Err :=
  if (s.surveys surveyId).surveyCreator = 0 then some .surveyDoesNotExist
  else if (s.surveys surveyId).isCanceled then some .surveyAlreadyCanceled
  else if sender ≠ (s.surveys surveyId).surveyCreator ∧ s.managers sender = false then
    some .onlyCreatorOrManager
  else if (s.surveys surveyId).participantsLimit ≤ (s.surveys surveyId).participantsRewarded then
    some .allParticipantsRewarded
  else none

/-- A state holding one live survey `"s1"`: creator 9, limit 2, reward 10,
one participant already rewarded. -/
def sC : QState :=
  { s0 with surveys := fun i => if i = "s1" then
      { surveyCreator := 9, participantsLimit := 2, rewardAmount := 10,
        participantsRewarded := 1, surveyHash := 5, rewardToken := 55, isCanceled := false }
    else SurveyStruct.empty }

/-- The create envelope delivered on the token-bearing path with zero
attached amount, from the trusted source. -/
def createEnv (ctx : Ctx) (sig : Nat) (token : B32) (timeToExpire : Nat)
    (owner : Address) (surveyId : String) (participantsLimit rewardAmount : Nat)
    (surveyHash : B32) (amountToGasStation : Nat) (tokenSymbol : String) : Envelope :=
  ⟨"agoric", ctx.trustedSender,
   .create sig token timeToExpire owner surveyId participantsLimit rewardAmount
     surveyHash amountToGasStation, true, tokenSymbol, 0⟩

/-- Concrete context whose clock (300) is past the proof expiry used below. -/
def ctxLate : Ctx := { ctx0 with blockTimestamp := 300 }

/-- Concrete context whose signature recovery yields 8, a non-manager. -/
def ctxBad : Ctx := { ctx0 with recover := fun _ _ => 8 }

/-- Create envelope with fresh token 11 and expiry 200. -/
def envCex : Envelope := ⟨"agoric", "qstn", .create 0 11 200 4 "s1" 0 0 77 0, true, "T", 0⟩

/-- The one-time token carried by a payload. -/
def Payload.theToken : Payload → B32
  | .create _ token _ _ _ _ _ _ _ => token
  | .cancel _ token _ _ => token
  | .payRewards _ token _ _ _ => token

/-- A state in which token 11 is already consumed. -/
def sUsed : QState := { s0 with proofTokens := fun t => t == 11 }

/-- Number of `SurveyFinished` events for `surveyId` in an event list. -/
def finCount (surveyId : String) (evs : List Event) : Nat :=
  (evs.filter (fun e => decide (e = Event.surveyFinished surveyId))).length

/-- The spec's ledger invariant: rewarded never exceeds the limit. -/
def LedgerInv (s : QState) : Prop :=
  ∀ id, (s.surveys id).participantsRewarded ≤ (s.surveys id).participantsLimit

/-- States reachable in practice: rewarded never exceeds the limit, and a
record with zero creator (a never-created survey, since `msg.sender` is
never the zero address) is entirely zero. -/
def GoodState (s : QState) : Prop :=
  ∀ id, (s.surveys id).participantsRewarded ≤ (s.surveys id).participantsLimit ∧
    ((s.surveys id).surveyCreator = 0 →
      (s.surveys id).participantsLimit = 0 ∧ (s.surveys id).participantsRewarded = 0)

/-! ## Inversion lemmas -/

theorem preAuthValidations_ok (ctx : Ctx) (s : QState) (m : Digest) (token : B32)
    (timeToExpire : Nat) (sig : Nat) (a : Address) (s' : QState)
    (h : preAuthValidations ctx s m token timeToExpire sig = .ok (a, s')) :
    m ≠ Digest.null ∧ s.proofTokens token = false ∧
    ¬ (timeToExpire < ctx.blockTimestamp) ∧
    a = getSigner ctx m sig ∧ a ≠ 0 ∧
    s' = { s with proofTokens := fun t => if t = token then true else s.proofTokens t } := by
  simp only [preAuthValidations] at h
  split at h
  · exact Except.noConfusion h
  · split at h
    · exact Except.noConfusion h
    · split at h
      · exact Except.noConfusion h
      · split at h
        · exact Except.noConfusion h
        · rename_i hnull htok hexp hzero
          simp only [Except.ok.injEq, Prod.mk.injEq] at h
          refine ⟨hnull, ?_, hexp, h.1.symm, ?_, h.2.symm⟩
          · cases hpt : s.proofTokens token with
            | false => rfl
            | true => exact absurd hpt htok
          · rw [← h.1]; exact hzero

theorem handleCreateSurvey_ok (ctx : Ctx) (s : QState) (sig : Nat) (token : B32)
    (timeToExpire : Nat) (owner : Address) (surveyId : String)
    (participantsLimit rewardAmount : Nat) (surveyHash : B32)
    (amountToGasStation amount : Nat) (tokenAddress : Address)
    (s2 : QState) (evs : List Event)
    (h : handleCreateSurvey ctx s sig token timeToExpire owner surveyId
      participantsLimit rewardAmount surveyHash amountToGasStation amount tokenAddress
      = .ok (s2, evs)) :
    s.proofTokens token = false ∧
    s.managers (getSigner ctx (Digest.createD ctx.chainId token timeToExpire owner surveyId
      participantsLimit rewardAmount surveyHash amountToGasStation) sig) = true ∧
    (s.surveys surveyId).surveyCreator = 0 ∧
    amount = participantsLimit * rewardAmount + amountToGasStation ∧
    s2 = { s with
      proofTokens := fun t => if t = token then true else s.proofTokens t,
      surveys := fun i => if i = surveyId then
        { surveyCreator := ctx.msgSender, participantsLimit := participantsLimit,
          rewardAmount := rewardAmount, participantsRewarded := 0,
          surveyHash := surveyHash, rewardToken := tokenAddress, isCanceled := false }
        else s.surveys i } ∧
    evs = [Event.transfer tokenAddress s.gasStation amountToGasStation,
           Event.surveyCreated surveyId ctx.msgSender participantsLimit rewardAmount surveyHash] := by
  simp only [handleCreateSurvey] at h
  split at h
  · exact Except.noConfusion h
  · rename_i signer s1 heq
    obtain ⟨hnn, htok, hexp, hsig, hnz, hst⟩ :=
      preAuthValidations_ok _ _ _ _ _ _ _ _ heq
    subst hst
    simp only [createProof, htok, if_false, Bool.false_eq_true] at hsig
    split at h
    · exact Except.noConfusion h
    · split at h
      · exact Except.noConfusion h
      · split at h
        · exact Except.noConfusion h
        · split at h
          · exact Except.noConfusion h
          · rename_i hmgr hcr hamt hfund
            simp only [Except.ok.injEq, Prod.mk.injEq] at h
            refine ⟨htok, ?_, ?_, ?_, h.1.symm, h.2.symm⟩
            · rw [← hsig]
              simpa using hmgr
            · simpa using hcr
            · omega

theorem executeWithToken_create_ok (ctx : Ctx) (s : QState) (sc sa : String)
    (sig : Nat) (token : B32) (timeToExpire : Nat) (owner : Address) (surveyId : String)
    (participantsLimit rewardAmount : Nat) (surveyHash : B32) (amountToGasStation : Nat)
    (tokenSymbol : String) (amount : Nat) (s1 : QState) (evs : List Event)
    (h : executeWithToken ctx s sc sa
      (.create sig token timeToExpire owner surveyId participantsLimit rewardAmount
        surveyHash amountToGasStation) tokenSymbol amount = .ok (s1, evs)) :
    sc = "agoric" ∧ sa = ctx.trustedSender ∧ amount = 0 ∧
    ∃ evs0, handleCreateSurvey ctx s sig token timeToExpire owner surveyId
        participantsLimit rewardAmount surveyHash amountToGasStation amount
        (ctx.tokenAddresses tokenSymbol) = .ok (s1, evs0) ∧
      evs = evs0 ++ [Event.executeCompleted 0] := by
  simp only [executeWithToken] at h
  split at h
  · exact Except.noConfusion h
  split at h
  · exact Except.noConfusion h
  split at h
  · exact Except.noConfusion h
  rename_i hsc hsa hamt
  split at h
  · exact Except.noConfusion h
  · rename_i s1' evs0 heq
    simp only [Except.ok.injEq, Prod.mk.injEq] at h
    refine ⟨by simpa using hsc, by simpa using hsa, by omega, evs0, ?_, h.2.symm⟩
    rw [← h.1]; exact heq

/-! ## Concrete fixtures used by witnesses and counterexamples -/

/-! ## Claims -/

/-- C7: the pay-rewards proof digest commits only to the lengths of the
two arrays: for the same state, token and expiry, any two batches whose
`surveyIds` and `participants` arrays have respectively equal lengths
produce an identical digest, whatever their contents. -/
theorem rewardProof_commits_to_lengths_only (ctx : Ctx) (s : QState) (token : B32)
    (timeToExpire : Nat) (ids1 ids2 : List String) (ps1 ps2 : List Address)
    (hids : ids1.length = ids2.length) (hps : ps1.length = ps2.length) :
    rewardProof ctx s token timeToExpire ids1 ps1
      = rewardProof ctx s token timeToExpire ids2 ps2 := by
  simp only [rewardProof, hids, hps]

theorem rewardProof_commits_to_lengths_only_witness :
    (["a", "b"] : List String).length = (["c", "d"] : List String).length ∧
    ([1, 2] : List Address).length = ([3, 4] : List Address).length ∧
    rewardProof ctx0 s0 11 200 ["a", "b"] [1, 2]
      = rewardProof ctx0 s0 11 200 ["c", "d"] [3, 4] :=
  ⟨rfl, rfl, rewardProof_commits_to_lengths_only ctx0 s0 11 200 _ _ _ _ rfl rfl⟩

/-- C1: whenever `participantsLimit*rewardAmount + amountToGasStation > 0`,
handling a create-survey envelope on the token-bearing path fails: a
positive attached amount is rejected with `NoTokens`, while a zero attached
amount cannot equal the required funding; so a create can only ever succeed
with `participantsLimit*rewardAmount + amountToGasStation = 0`. -/
theorem createEnvelope_fails_unless_zero_funding (ctx : Ctx) (s : QState)
    (sc sa : String) (sig : Nat) (token : B32) (timeToExpire : Nat) (owner : Address)
    (surveyId : String) (participantsLimit rewardAmount : Nat) (surveyHash : B32)
    (amountToGasStation : Nat) (tokenSymbol : String) (amount : Nat)
    (h : 0 < participantsLimit * rewardAmount + amountToGasStation) :
    ∃ e, executeWithToken ctx s sc sa
      (.create sig token timeToExpire owner surveyId participantsLimit rewardAmount
        surveyHash amountToGasStation) tokenSymbol amount = .error e := by
  cases hr : executeWithToken ctx s sc sa
      (.create sig token timeToExpire owner surveyId participantsLimit rewardAmount
        surveyHash amountToGasStation) tokenSymbol amount with
  | error e => exact ⟨e, rfl⟩
  | ok p =>
    obtain ⟨s1, evs⟩ := p
    obtain ⟨-, -, hz, evs0, hcr, -⟩ := executeWithToken_create_ok _ _ _ _ _ _ _ _ _ _ _ _ _ _ _ _ _ hr
    obtain ⟨-, -, -, hamt, -, -⟩ := handleCreateSurvey_ok _ _ _ _ _ _ _ _ _ _ _ _ _ _ _ hcr
    omega

theorem createEnvelope_fails_unless_zero_funding_witness :
    0 < 1 * 1 + 0 ∧
    ∃ e, executeWithToken ctx0 s0 "agoric" "qstn"
      (.create 0 11 200 4 "s1" 1 1 77 0) "T" 0 = .error e :=
  ⟨by decide, createEnvelope_fails_unless_zero_funding ctx0 s0 "agoric" "qstn"
    0 11 200 4 "s1" 1 1 77 0 "T" 0 (by decide)⟩

/-- C5: a create attempt whose received amount differs from
`participantsLimit*rewardAmount + amountToGasStation` fails, the whole
envelope reverts leaving the ledger unchanged, and in particular no record
exists under the survey id afterwards when none existed before. -/
theorem create_invalid_funding_fails (ctx : Ctx) (s : QState) (sc sa : String)
    (sig : Nat) (token : B32) (timeToExpire : Nat) (owner : Address) (surveyId : String)
    (participantsLimit rewardAmount : Nat) (surveyHash : B32) (amountToGasStation : Nat)
    (tokenSymbol : String) (amount : Nat)
    (h : amount ≠ participantsLimit * rewardAmount + amountToGasStation) :
    (∃ e, executeWithToken ctx s sc sa
      (.create sig token timeToExpire owner surveyId participantsLimit rewardAmount
        surveyHash amountToGasStation) tokenSymbol amount = .error e) ∧
    (applyEnvelope ctx s
      ⟨sc, sa, .create sig token timeToExpire owner surveyId participantsLimit rewardAmount
        surveyHash amountToGasStation, true, tokenSymbol, amount⟩).1 = s ∧
    ((s.surveys surveyId).surveyCreator = 0 →
      (((applyEnvelope ctx s
        ⟨sc, sa, .create sig token timeToExpire owner surveyId participantsLimit rewardAmount
          surveyHash amountToGasStation, true, tokenSymbol, amount⟩).1).surveys surveyId).surveyCreator = 0) := by
  have hfail : ∃ e, executeWithToken ctx s sc sa
      (.create sig token timeToExpire owner surveyId participantsLimit rewardAmount
        surveyHash amountToGasStation) tokenSymbol amount = .error e := by
    cases hr : executeWithToken ctx s sc sa
        (.create sig token timeToExpire owner surveyId participantsLimit rewardAmount
          surveyHash amountToGasStation) tokenSymbol amount with
    | error e => exact ⟨e, rfl⟩
    | ok p =>
      obtain ⟨s1, evs⟩ := p
      obtain ⟨-, -, -, evs0, hcr, -⟩ := executeWithToken_create_ok _ _ _ _ _ _ _ _ _ _ _ _ _ _ _ _ _ hr
      obtain ⟨-, -, -, hamt, -, -⟩ := handleCreateSurvey_ok _ _ _ _ _ _ _ _ _ _ _ _ _ _ _ hcr
      exact absurd hamt h
  obtain ⟨e, he⟩ := hfail
  have hpost : (applyEnvelope ctx s
      ⟨sc, sa, .create sig token timeToExpire owner surveyId participantsLimit rewardAmount
        surveyHash amountToGasStation, true, tokenSymbol, amount⟩).1 = s := by
    simp only [applyEnvelope]
    rw [if_pos trivial, he]
  exact ⟨⟨e, he⟩, hpost, fun hcr0 => by rw [hpost]; exact hcr0⟩

theorem create_invalid_funding_fails_witness :
    (0 : Nat) ≠ 2 * 10 + 1 ∧
    (∃ e, executeWithToken ctx0 s0 "agoric" "qstn"
      (.create 0 11 200 4 "s1" 2 10 77 1) "T" 0 = .error e) ∧
    (applyEnvelope ctx0 s0
      ⟨"agoric", "qstn", .create 0 11 200 4 "s1" 2 10 77 1, true, "T", 0⟩).1 = s0 :=
  ⟨by decide,
   (create_invalid_funding_fails ctx0 s0 "agoric" "qstn" 0 11 200 4 "s1" 2 10 77 1 "T" 0 (by decide)).1,
   (create_invalid_funding_fails ctx0 s0 "agoric" "qstn" 0 11 200 4 "s1" 2 10 77 1 "T" 0 (by decide)).2.1⟩

theorem handleCancelSurvey_ok (ctx : Ctx) (s : QState) (sig : Nat) (token : B32)
    (timeToExpire : Nat) (surveyId : String) (s2 : QState) (evs : List Event)
    (h : handleCancelSurvey ctx s sig token timeToExpire surveyId = .ok (s2, evs)) :
    (s.surveys surveyId).surveyCreator ≠ 0 ∧
    (s.surveys surveyId).isCanceled = false ∧
    (ctx.msgSender = (s.surveys surveyId).surveyCreator ∨ s.managers ctx.msgSender = true) ∧
    (s.surveys surveyId).participantsRewarded < (s.surveys surveyId).participantsLimit ∧
    s.proofTokens token = false ∧
    s.managers (getSigner ctx (Digest.cancelD ctx.chainId token timeToExpire surveyId) sig) = true ∧
    s2 = { s with
      proofTokens := fun t => if t = token then true else s.proofTokens t,
      surveys := fun i => if i = surveyId
        then { s.surveys surveyId with isCanceled := true } else s.surveys i } ∧
    evs = [Event.transfer (s.surveys surveyId).rewardToken (s.surveys surveyId).surveyCreator
            ((s.surveys surveyId).participantsLimit * (s.surveys surveyId).rewardAmount
              - (s.surveys surveyId).participantsRewarded * (s.surveys surveyId).rewardAmount),
           Event.surveyCanceled surveyId] := by
  simp only [handleCancelSurvey] at h
  split at h
  · exact Except.noConfusion h
  split at h
  · exact Except.noConfusion h
  split at h
  · exact Except.noConfusion h
  split at h
  · exact Except.noConfusion h
  rename_i hcr hcanc hauth hlim
  split at h
  · exact Except.noConfusion h
  · rename_i signer s1 heq
    obtain ⟨hnn, htok, hexp, hsig, hnz, hst⟩ :=
      preAuthValidations_ok _ _ _ _ _ _ _ _ heq
    subst hst
    simp only [cancelProof, htok, if_false, Bool.false_eq_true] at hsig
    split at h
    · exact Except.noConfusion h
    · rename_i hmgr
      simp only [Except.ok.injEq, Prod.mk.injEq] at h
      refine ⟨hcr, by simpa using hcanc, ?_, by omega, htok, ?_, h.1.symm, ?_⟩
      · rcases not_and_or.mp hauth with h1 | h2
        · exact Or.inl (not_not.mp h1)
        · exact Or.inr (by simpa using h2)
      · rw [← hsig]; simpa using hmgr
      · rw [← h.2]
        simp only [getSurveyAmountToFund, getSurveysRewardsAmountPayded]

/-- C8: in the cancel flow the business-state checks run before proof
validation: when one of them fails, the cancel fails with that business
error whatever the signature, token and expiry carried by the envelope,
and the one-time token is not consumed (the envelope leaves the recorded
proof tokens unchanged). -/
theorem cancel_business_checks_precede_proof (ctx : Ctx) (s : QState)
    (surveyId : String) (e : Err)
    (h : cancelBusinessErr s ctx.msgSender surveyId = some e) :
    ∀ sig token timeToExpire,
      handleCancelSurvey ctx s sig token timeToExpire surveyId = .error e ∧
      (applyEnvelope ctx s
        ⟨"agoric", ctx.trustedSender, .cancel sig token timeToExpire surveyId,
          false, "", 0⟩).1.proofTokens = s.proofTokens := by
  intro sig token timeToExpire
  have hh : handleCancelSurvey ctx s sig token timeToExpire surveyId = .error e := by
    simp only [cancelBusinessErr] at h
    simp only [handleCancelSurvey]
    split at h
    · rename_i h1
      rw [if_pos h1]
      simpa using congrArg (Option.getD · .wrongSource) h
    split at h
    · rename_i h1 h2
      rw [if_neg h1, if_pos h2]
      simpa using congrArg (Option.getD · .wrongSource) h
    split at h
    · rename_i h1 h2 h3
      rw [if_neg h1, if_neg h2, if_pos h3]
      simpa using congrArg (Option.getD · .wrongSource) h
    split at h
    · rename_i h1 h2 h3 h4
      rw [if_neg h1, if_neg h2, if_neg h3, if_pos h4]
      simpa using congrArg (Option.getD · .wrongSource) h
    · exact Option.noConfusion h
  refine ⟨hh, ?_⟩
  simp only [applyEnvelope]
  rw [if_neg (by simp), executeNoToken]
  rw [if_neg (by simp), if_neg (by simp)]
  rw [hh]

theorem cancel_business_checks_precede_proof_witness :
    cancelBusinessErr s0 ctx0.msgSender "s1" = some .surveyDoesNotExist ∧
    (handleCancelSurvey ctx0 s0 0 11 200 "s1" = .error .surveyDoesNotExist ∧
      (applyEnvelope ctx0 s0
        ⟨"agoric", ctx0.trustedSender, .cancel 0 11 200 "s1", false, "", 0⟩).1.proofTokens
        = s0.proofTokens) :=
  ⟨by decide,
   cancel_business_checks_precede_proof ctx0 s0 "s1" .surveyDoesNotExist (by decide) 0 11 200⟩

theorem handleCancelSurvey_canceled (ctx : Ctx) (s : QState) (sig : Nat) (token : B32)
    (timeToExpire : Nat) (surveyId : String)
    (hcr : ¬ (s.surveys surveyId).surveyCreator = 0)
    (hc : (s.surveys surveyId).isCanceled = true) :
    handleCancelSurvey ctx s sig token timeToExpire surveyId = .error .surveyAlreadyCanceled := by
  simp only [handleCancelSurvey]
  rw [if_neg hcr, if_pos hc]

/-- C6: a successful cancel of an existing, non-canceled survey with
`participantsRewarded < participantsLimit` transfers exactly
`participantsLimit*rewardAmount - participantsRewarded*rewardAmount` of the
reward token to the recorded creator and sets the canceled flag; any second
cancel of that survey then fails with `SurveyAlreadyCanceled`, and the
reverted envelope emits no transfer at all. -/
theorem cancel_refunds_once (ctx : Ctx) (s : QState) (sig : Nat) (token : B32)
    (timeToExpire : Nat) (surveyId : String) (s1 : QState) (evs : List Event)
    (hcr : (s.surveys surveyId).surveyCreator ≠ 0)
    (hnc : (s.surveys surveyId).isCanceled = false)
    (hlt : (s.surveys surveyId).participantsRewarded < (s.surveys surveyId).participantsLimit)
    (hok : handleCancelSurvey ctx s sig token timeToExpire surveyId = .ok (s1, evs)) :
    evs = [Event.transfer (s.surveys surveyId).rewardToken (s.surveys surveyId).surveyCreator
            ((s.surveys surveyId).participantsLimit * (s.surveys surveyId).rewardAmount
              - (s.surveys surveyId).participantsRewarded * (s.surveys surveyId).rewardAmount),
           Event.surveyCanceled surveyId] ∧
    (s1.surveys surveyId).isCanceled = true ∧
    ∀ ctx2 sig2 token2 exp2,
      handleCancelSurvey ctx2 s1 sig2 token2 exp2 surveyId = .error .surveyAlreadyCanceled ∧
      (applyEnvelope ctx2 s1
        ⟨"agoric", ctx2.trustedSender, .cancel sig2 token2 exp2 surveyId, false, "", 0⟩).2.1 = [] := by
  obtain ⟨h1, h2, h3, h4, h5, h6, hs1, hevs⟩ := handleCancelSurvey_ok _ _ _ _ _ _ _ _ hok
  have hfld : (s1.surveys surveyId) = { s.surveys surveyId with isCanceled := true } := by
    rw [hs1]; simp
  refine ⟨hevs, by rw [hfld], ?_⟩
  intro ctx2 sig2 token2 exp2
  have hcanc2 : handleCancelSurvey ctx2 s1 sig2 token2 exp2 surveyId
      = .error .surveyAlreadyCanceled := by
    refine handleCancelSurvey_canceled _ _ _ _ _ _ ?_ (by rw [hfld])
    rw [hfld]; simpa using h1
  refine ⟨hcanc2, ?_⟩
  simp only [applyEnvelope]
  rw [if_neg (by simp), executeNoToken]
  rw [if_neg (by simp), if_neg (by simp)]
  rw [hcanc2]

theorem cancel_refunds_once_witness :
    ∃ p : QState × List Event,
      handleCancelSurvey ctx0 sC 0 11 200 "s1" = .ok p ∧
      p.2 = [Event.transfer 55 9 10, Event.surveyCanceled "s1"] ∧
      (p.1.surveys "s1").isCanceled = true ∧
      handleCancelSurvey ctx0 p.1 0 12 300 "s1" = .error .surveyAlreadyCanceled := by
  have hco : (handleCancelSurvey ctx0 sC 0 11 200 "s1").isOk = true := by decide
  cases hok : handleCancelSurvey ctx0 sC 0 11 200 "s1" with
  | error e => rw [hok] at hco; simp [Except.isOk, Except.toBool] at hco
  | ok p =>
    obtain ⟨s1, evs⟩ := p
    obtain ⟨hevs, hflag, hsecond⟩ :=
      cancel_refunds_once ctx0 sC 0 11 200 "s1" s1 evs (by decide) (by decide) (by decide) hok
    have hevs2 : evs = [Event.transfer 55 9 10, Event.surveyCanceled "s1"] :=
      hevs.trans (by decide)
    exact ⟨(s1, evs), rfl, hevs2, hflag, (hsecond ctx0 0 12 300).1⟩

/-! ## Reduction helpers for the two delivery paths -/

theorem applyEnvelope_eq_error (ctx : Ctx) (s : QState) (e : Envelope) (err : Err)
    (h : (if e.withToken
      then executeWithToken ctx s e.sourceChain e.sourceAddress e.payload e.tokenSymbol e.amount
      else executeNoToken ctx s e.sourceChain e.sourceAddress e.payload) = .error err) :
    applyEnvelope ctx s e = (s, [], some err) := by
  simp only [applyEnvelope]
  rw [h]

theorem applyEnvelope_eq_ok (ctx : Ctx) (s : QState) (e : Envelope)
    (s1 : QState) (evs : List Event)
    (h : (if e.withToken
      then executeWithToken ctx s e.sourceChain e.sourceAddress e.payload e.tokenSymbol e.amount
      else executeNoToken ctx s e.sourceChain e.sourceAddress e.payload) = .ok (s1, evs)) :
    applyEnvelope ctx s e = (s1, evs, none) := by
  simp only [applyEnvelope]
  rw [h]

theorem executeWithToken_create_eq (ctx : Ctx) (s : QState) (tokenSymbol : String)
    (amount : Nat) (sig : Nat) (token : B32) (timeToExpire : Nat) (owner : Address)
    (surveyId : String) (participantsLimit rewardAmount : Nat) (surveyHash : B32)
    (amountToGasStation : Nat) :
    executeWithToken ctx s "agoric" ctx.trustedSender
      (.create sig token timeToExpire owner surveyId participantsLimit rewardAmount
        surveyHash amountToGasStation) tokenSymbol amount
    = if 0 < amount then .error .noTokens
      else match handleCreateSurvey ctx s sig token timeToExpire owner surveyId
          participantsLimit rewardAmount surveyHash amountToGasStation amount
          (ctx.tokenAddresses tokenSymbol) with
        | .error e => .error e
        | .ok (s1, evs) => .ok (s1, evs ++ [Event.executeCompleted 0]) := by
  simp only [executeWithToken]
  rw [if_neg (by simp), if_neg (by simp)]

theorem executeNoToken_cancel_eq (ctx : Ctx) (s : QState) (sig : Nat) (token : B32)
    (timeToExpire : Nat) (surveyId : String) :
    executeNoToken ctx s "agoric" ctx.trustedSender (.cancel sig token timeToExpire surveyId)
    = match handleCancelSurvey ctx s sig token timeToExpire surveyId with
      | .error e => .error e
      | .ok (s1, evs) => .ok (s1, evs ++ [Event.executeCompleted 1]) := by
  simp only [executeNoToken]
  rw [if_neg (by simp), if_neg (by simp)]

theorem executeNoToken_pay_eq (ctx : Ctx) (s : QState) (sig : Nat) (token : B32)
    (timeToExpire : Nat) (surveyIds : List String) (participantsEncoded : List Address) :
    executeNoToken ctx s "agoric" ctx.trustedSender
      (.payRewards sig token timeToExpire surveyIds participantsEncoded)
    = match handleRewardPayment ctx s sig token timeToExpire surveyIds participantsEncoded with
      | .error e => .error e
      | .ok (s1, evs) => .ok (s1, evs ++ [Event.executeCompleted 2]) := by
  simp only [executeNoToken]
  rw [if_neg (by simp), if_neg (by simp)]

theorem createEnv_preAuth_error (ctx : Ctx) (s : QState) (sig : Nat) (token : B32)
    (timeToExpire : Nat) (owner : Address) (surveyId : String)
    (participantsLimit rewardAmount : Nat) (surveyHash : B32)
    (amountToGasStation : Nat) (tokenSymbol : String) (e : Err)
    (he : preAuthValidations ctx s
      (createProof ctx s token timeToExpire owner surveyId participantsLimit rewardAmount
        surveyHash amountToGasStation) token timeToExpire sig = .error e) :
    applyEnvelope ctx s (createEnv ctx sig token timeToExpire owner surveyId
      participantsLimit rewardAmount surveyHash amountToGasStation tokenSymbol)
    = (s, [], some e) := by
  have hh : handleCreateSurvey ctx s sig token timeToExpire owner surveyId
      participantsLimit rewardAmount surveyHash amountToGasStation 0
      (ctx.tokenAddresses tokenSymbol) = .error e := by
    simp only [handleCreateSurvey]
    rw [he]
  simp only [applyEnvelope, createEnv]
  rw [if_pos trivial, executeWithToken_create_eq, if_neg (by simp), hh]

theorem createEnv_handle_error (ctx : Ctx) (s : QState) (sig : Nat) (token : B32)
    (timeToExpire : Nat) (owner : Address) (surveyId : String)
    (participantsLimit rewardAmount : Nat) (surveyHash : B32)
    (amountToGasStation : Nat) (tokenSymbol : String) (e : Err)
    (hh : handleCreateSurvey ctx s sig token timeToExpire owner surveyId
      participantsLimit rewardAmount surveyHash amountToGasStation 0
      (ctx.tokenAddresses tokenSymbol) = .error e) :
    applyEnvelope ctx s (createEnv ctx sig token timeToExpire owner surveyId
      participantsLimit rewardAmount surveyHash amountToGasStation tokenSymbol)
    = (s, [], some e) := by
  simp only [applyEnvelope, createEnv]
  rw [if_pos trivial, executeWithToken_create_eq, if_neg (by simp), hh]

theorem preAuthValidations_expired (ctx : Ctx) (s : QState) (m : Digest) (token : B32)
    (timeToExpire : Nat) (sig : Nat) (hm : m ≠ Digest.null)
    (ht : s.proofTokens token = false) (he : timeToExpire < ctx.blockTimestamp) :
    preAuthValidations ctx s m token timeToExpire sig = .error .proofExpired := by
  simp only [preAuthValidations]
  rw [if_neg hm, if_neg (by simp [ht]), if_pos he]

theorem preAuthValidations_zeroSigner (ctx : Ctx) (s : QState) (m : Digest) (token : B32)
    (timeToExpire : Nat) (sig : Nat) (hm : m ≠ Digest.null)
    (ht : s.proofTokens token = false) (he : ¬ timeToExpire < ctx.blockTimestamp)
    (hz : getSigner ctx m sig = 0) :
    preAuthValidations ctx s m token timeToExpire sig = .error .zeroAddress := by
  simp only [preAuthValidations]
  rw [if_neg hm, if_neg (by simp [ht]), if_neg he, if_pos hz]

theorem preAuthValidations_success (ctx : Ctx) (s : QState) (m : Digest) (token : B32)
    (timeToExpire : Nat) (sig : Nat) (hm : m ≠ Digest.null)
    (ht : s.proofTokens token = false) (he : ¬ timeToExpire < ctx.blockTimestamp)
    (hnz : ¬ getSigner ctx m sig = 0) :
    preAuthValidations ctx s m token timeToExpire sig
      = .ok (getSigner ctx m sig,
        { s with proofTokens := fun t => if t = token then true else s.proofTokens t }) := by
  simp only [preAuthValidations]
  rw [if_neg hm, if_neg (by simp [ht]), if_neg he, if_neg hnz]

/-- C2 counterexample: at concrete inputs, when proof validation fails
because the proof is expired, and likewise when the recovered signer is not
a manager, token 11 is NOT consumed afterwards — the revert also rolls back
the consumption that `preAuthValidations` had recorded — contrary to the
claim that the token is consumed in these cases. -/
theorem proof_failure_consumes_no_token_cex :
    ((applyEnvelope ctxLate s0 envCex).2.2 = some .proofExpired ∧
      (applyEnvelope ctxLate s0 envCex).1.proofTokens 11 = false) ∧
    ((applyEnvelope ctxBad s0 envCex).2.2 = some .invalidSigner ∧
      (applyEnvelope ctxBad s0 envCex).1.proofTokens 11 = false) := by
  decide

/-- C2 (amended): on the create path, every proof-validation failure —
expired proof, zero recovered signer, unauthorized (non-manager) signer, or
reused token (null digest) — reverts the envelope, and the persisted state
is unchanged, so the one-time token is NOT consumed in any failure case;
within `preAuthValidations` itself consumption is recorded before control
returns to the caller, but a subsequent revert rolls it back. -/
theorem proof_failure_consumes_no_token (ctx : Ctx) (s : QState) (sig : Nat)
    (token : B32) (timeToExpire : Nat) (owner : Address) (surveyId : String)
    (participantsLimit rewardAmount : Nat) (surveyHash : B32)
    (amountToGasStation : Nat) (tokenSymbol : String) :
    (s.proofTokens token = false → timeToExpire < ctx.blockTimestamp →
      applyEnvelope ctx s (createEnv ctx sig token timeToExpire owner surveyId
        participantsLimit rewardAmount surveyHash amountToGasStation tokenSymbol)
      = (s, [], some .proofExpired)) ∧
    (s.proofTokens token = false → ¬ timeToExpire < ctx.blockTimestamp →
      getSigner ctx (Digest.createD ctx.chainId token timeToExpire owner surveyId
        participantsLimit rewardAmount surveyHash amountToGasStation) sig = 0 →
      applyEnvelope ctx s (createEnv ctx sig token timeToExpire owner surveyId
        participantsLimit rewardAmount surveyHash amountToGasStation tokenSymbol)
      = (s, [], some .zeroAddress)) ∧
    (s.proofTokens token = false → ¬ timeToExpire < ctx.blockTimestamp →
      getSigner ctx (Digest.createD ctx.chainId token timeToExpire owner surveyId
        participantsLimit rewardAmount surveyHash amountToGasStation) sig ≠ 0 →
      s.managers (getSigner ctx (Digest.createD ctx.chainId token timeToExpire owner surveyId
        participantsLimit rewardAmount surveyHash amountToGasStation) sig) = false →
      applyEnvelope ctx s (createEnv ctx sig token timeToExpire owner surveyId
        participantsLimit rewardAmount surveyHash amountToGasStation tokenSymbol)
      = (s, [], some .invalidSigner)) ∧
    (s.proofTokens token = true →
      applyEnvelope ctx s (createEnv ctx sig token timeToExpire owner surveyId
        participantsLimit rewardAmount surveyHash amountToGasStation tokenSymbol)
      = (s, [], some .invalidMessageHash)) ∧
    (∀ m a s1, preAuthValidations ctx s m token timeToExpire sig = .ok (a, s1) →
      s1.proofTokens token = true) := by
  refine ⟨?_, ?_, ?_, ?_, ?_⟩
  · intro ht he
    apply createEnv_preAuth_error
    have hcp : createProof ctx s token timeToExpire owner surveyId participantsLimit
        rewardAmount surveyHash amountToGasStation
        = Digest.createD ctx.chainId token timeToExpire owner surveyId
          participantsLimit rewardAmount surveyHash amountToGasStation := by
      simp [createProof, ht]
    rw [hcp]
    exact preAuthValidations_expired _ _ _ _ _ _ (by simp) ht he
  · intro ht he hz
    apply createEnv_preAuth_error
    have hcp : createProof ctx s token timeToExpire owner surveyId participantsLimit
        rewardAmount surveyHash amountToGasStation
        = Digest.createD ctx.chainId token timeToExpire owner surveyId
          participantsLimit rewardAmount surveyHash amountToGasStation := by
      simp [createProof, ht]
    rw [hcp]
    exact preAuthValidations_zeroSigner _ _ _ _ _ _ (by simp) ht he hz
  · intro ht he hnz hnm
    apply createEnv_handle_error
    have hcp : createProof ctx s token timeToExpire owner surveyId participantsLimit
        rewardAmount surveyHash amountToGasStation
        = Digest.createD ctx.chainId token timeToExpire owner surveyId
          participantsLimit rewardAmount surveyHash amountToGasStation := by
      simp [createProof, ht]
    have hpre := preAuthValidations_success ctx s (createProof ctx s token timeToExpire
      owner surveyId participantsLimit rewardAmount surveyHash amountToGasStation)
      token timeToExpire sig (by rw [hcp]; simp) ht he (by rw [hcp]; exact hnz)
    simp only [handleCreateSurvey, hpre]
    have hm : s.managers (getSigner ctx (createProof ctx s token timeToExpire owner
        surveyId participantsLimit rewardAmount surveyHash amountToGasStation) sig)
        = false := by rw [hcp]; exact hnm
    rw [if_pos hm]
  · intro ht
    apply createEnv_preAuth_error
    have hcp : createProof ctx s token timeToExpire owner surveyId participantsLimit
        rewardAmount surveyHash amountToGasStation = Digest.null := by
      simp [createProof, ht]
    rw [hcp]
    simp [preAuthValidations]
  · intro m a s1 h
    obtain ⟨-, -, -, -, -, hst⟩ := preAuthValidations_ok _ _ _ _ _ _ _ _ h
    rw [hst]; simp

theorem proof_failure_consumes_no_token_witness :
    applyEnvelope ctxLate s0 (createEnv ctxLate 0 11 200 4 "s1" 0 0 77 0 "T")
      = (s0, [], some .proofExpired) :=
  (proof_failure_consumes_no_token ctxLate s0 0 11 200 4 "s1" 0 0 77 0 "T").1
    (by decide) (by decide)

theorem rewardLoop_frame : ∀ (items : List (String × Address)) (s s' : QState)
    (evs : List Event), rewardLoop s items = .ok (s', evs) →
    s'.proofTokens = s.proofTokens ∧ s'.managers = s.managers ∧
    s'.gasStation = s.gasStation := by
  intro items
  induction items with
  | nil =>
    intro s s' evs h
    simp only [rewardLoop, Except.ok.injEq, Prod.mk.injEq] at h
    rw [← h.1]
    exact ⟨rfl, rfl, rfl⟩
  | cons hd tl ih =>
    intro s s' evs h
    obtain ⟨surveyId, participant⟩ := hd
    simp only [rewardLoop] at h
    split at h
    · exact Except.noConfusion h
    split at h
    · exact Except.noConfusion h
    split at h
    · exact Except.noConfusion h
    split at h
    · exact Except.noConfusion h
    · rename_i s2 evs2 heq
      simp only [Except.ok.injEq, Prod.mk.injEq] at h
      obtain ⟨h1, h2, h3⟩ := ih _ _ _ heq
      rw [← h.1]
      exact ⟨h1, h2, h3⟩

theorem handleRewardPayment_ok (ctx : Ctx) (s : QState) (sig : Nat) (token : B32)
    (timeToExpire : Nat) (surveyIds : List String) (participantsEncoded : List Address)
    (s' : QState) (evs : List Event)
    (h : handleRewardPayment ctx s sig token timeToExpire surveyIds participantsEncoded
      = .ok (s', evs)) :
    surveyIds.length = participantsEncoded.length ∧
    s.proofTokens token = false ∧
    s.managers (getSigner ctx (Digest.rewardD ctx.chainId token timeToExpire
      surveyIds.length participantsEncoded.length) sig) = true ∧
    rewardLoop { s with proofTokens := fun t => if t = token then true else s.proofTokens t }
      (surveyIds.zip participantsEncoded) = .ok (s', evs) := by
  simp only [handleRewardPayment] at h
  split at h
  · exact Except.noConfusion h
  rename_i hlen
  split at h
  · exact Except.noConfusion h
  · rename_i signer s1 heq
    obtain ⟨hnn, htok, hexp, hsig, hnz, hst⟩ := preAuthValidations_ok _ _ _ _ _ _ _ _ heq
    subst hst
    simp only [rewardProof, htok, if_false, Bool.false_eq_true] at hsig
    split at h
    · exact Except.noConfusion h
    · rename_i hmgr
      refine ⟨by simpa using hlen, htok, ?_, h⟩
      rw [← hsig]
      simpa using hmgr

theorem handleCreateSurvey_consumed (ctx : Ctx) (s : QState) (sig : Nat) (token : B32)
    (timeToExpire : Nat) (owner : Address) (surveyId : String)
    (participantsLimit rewardAmount : Nat) (surveyHash : B32)
    (amountToGasStation amount : Nat) (tokenAddress : Address)
    (ht : s.proofTokens token = true) :
    handleCreateSurvey ctx s sig token timeToExpire owner surveyId participantsLimit
      rewardAmount surveyHash amountToGasStation amount tokenAddress
      = .error .invalidMessageHash := by
  simp [handleCreateSurvey, createProof, ht, preAuthValidations]

theorem handleCancelSurvey_consumed (ctx : Ctx) (s : QState) (sig : Nat) (token : B32)
    (timeToExpire : Nat) (surveyId : String) (ht : s.proofTokens token = true) :
    ∃ e, handleCancelSurvey ctx s sig token timeToExpire surveyId = .error e := by
  simp only [handleCancelSurvey]
  split
  · exact ⟨_, rfl⟩
  split
  · exact ⟨_, rfl⟩
  split
  · exact ⟨_, rfl⟩
  split
  · exact ⟨_, rfl⟩
  · simp [cancelProof, ht, preAuthValidations]

theorem handleRewardPayment_consumed (ctx : Ctx) (s : QState) (sig : Nat) (token : B32)
    (timeToExpire : Nat) (surveyIds : List String) (participantsEncoded : List Address)
    (ht : s.proofTokens token = true) :
    ∃ e, handleRewardPayment ctx s sig token timeToExpire surveyIds participantsEncoded
      = .error e := by
  simp only [handleRewardPayment]
  split
  · exact ⟨_, rfl⟩
  · simp [rewardProof, ht, preAuthValidations]

theorem consumedUpd_true (s : QState) (token t : B32) (ht : s.proofTokens t = true) :
    QState.proofTokens
      { s with proofTokens := fun x => if x = token then true else s.proofTokens x } t
      = true := by
  show (if t = token then true else s.proofTokens t) = true
  split
  · rfl
  · exact ht

theorem executeWithToken_proofTokens_mono (ctx : Ctx) (s : QState) (sc sa : String)
    (pl : Payload) (sym : String) (amt : Nat) (s1 : QState) (evs : List Event)
    (t : B32) (h : executeWithToken ctx s sc sa pl sym amt = .ok (s1, evs))
    (ht : s.proofTokens t = true) : s1.proofTokens t = true := by
  simp only [executeWithToken] at h
  split at h
  · exact Except.noConfusion h
  split at h
  · exact Except.noConfusion h
  split at h
  · exact Except.noConfusion h
  split at h <;> try exact Except.noConfusion h
  split at h
  · exact Except.noConfusion h
  · rename_i s2 evs0 heq
    simp only [Except.ok.injEq, Prod.mk.injEq] at h
    obtain ⟨-, -, -, -, hs2, -⟩ := handleCreateSurvey_ok _ _ _ _ _ _ _ _ _ _ _ _ _ _ _ heq
    rw [← h.1, hs2]
    simp only []
    split
    · rfl
    · exact ht

theorem executeNoToken_proofTokens_mono (ctx : Ctx) (s : QState) (sc sa : String)
    (pl : Payload) (s1 : QState) (evs : List Event) (t : B32)
    (h : executeNoToken ctx s sc sa pl = .ok (s1, evs))
    (ht : s.proofTokens t = true) : s1.proofTokens t = true := by
  simp only [executeNoToken] at h
  split at h
  · exact Except.noConfusion h
  split at h
  · exact Except.noConfusion h
  split at h <;> try exact Except.noConfusion h
  · -- cancel arm
    split at h
    · exact Except.noConfusion h
    · rename_i s2 evs0 heq
      simp only [Except.ok.injEq, Prod.mk.injEq] at h
      obtain ⟨-, -, -, -, -, -, hs2, -⟩ := handleCancelSurvey_ok _ _ _ _ _ _ _ _ heq
      rw [← h.1, hs2]
      simp only []
      split
      · rfl
      · exact ht
  · -- pay-rewards arm
    split at h
    · exact Except.noConfusion h
    · rename_i s2 evs0 heq
      simp only [Except.ok.injEq, Prod.mk.injEq] at h
      obtain ⟨-, -, -, hloop⟩ := handleRewardPayment_ok _ _ _ _ _ _ _ _ _ heq
      obtain ⟨hpt, -, -⟩ := rewardLoop_frame _ _ _ _ hloop
      rw [← h.1, congrFun hpt t]
      exact consumedUpd_true s _ t ht

theorem applyEnvelope_proofTokens_mono (ctx : Ctx) (s : QState) (env : Envelope)
    (t : B32) (ht : s.proofTokens t = true) :
    (applyEnvelope ctx s env).1.proofTokens t = true := by
  rcases hr : (if env.withToken
    then executeWithToken ctx s env.sourceChain env.sourceAddress env.payload
      env.tokenSymbol env.amount
    else executeNoToken ctx s env.sourceChain env.sourceAddress env.payload) with e | p
  · rw [applyEnvelope_eq_error _ _ _ _ hr]
    exact ht
  · obtain ⟨s1, evs⟩ := p
    rw [applyEnvelope_eq_ok _ _ _ _ _ hr]
    by_cases hw : env.withToken
    · rw [if_pos hw] at hr
      exact executeWithToken_proofTokens_mono _ _ _ _ _ _ _ _ _ _ hr ht
    · rw [if_neg hw] at hr
      exact executeNoToken_proofTokens_mono _ _ _ _ _ _ _ _ hr ht

theorem runTrace_proofTokens_mono (t : B32) : ∀ (tr : List (Ctx × Envelope)) (s : QState),
    s.proofTokens t = true → (runTrace s tr).1.proofTokens t = true := by
  intro tr
  induction tr with
  | nil => intro s ht; exact ht
  | cons p rest ih =>
    intro s ht
    simp only [runTrace]
    exact ih _ (applyEnvelope_proofTokens_mono _ _ _ _ ht)

theorem applyEnvelope_consumed_fails (ctx : Ctx) (s : QState) (env : Envelope)
    (ht : s.proofTokens env.payload.theToken = true) :
    ∃ e, applyEnvelope ctx s env = (s, [], some e) := by
  obtain ⟨sc, sa, pl, wt, sym, amt⟩ := env
  suffices hrun : ∃ e, (if wt then executeWithToken ctx s sc sa pl sym amt
      else executeNoToken ctx s sc sa pl) = .error e by
    obtain ⟨e, he⟩ := hrun
    exact ⟨e, applyEnvelope_eq_error _ _ _ _ he⟩
  cases pl with
  | create sig token timeToExpire owner surveyId participantsLimit rewardAmount
      surveyHash amountToGasStation =>
    simp only [Payload.theToken] at ht
    cases wt with
    | true =>
      rw [if_pos rfl]
      simp only [executeWithToken]
      split
      · exact ⟨_, rfl⟩
      split
      · exact ⟨_, rfl⟩
      split
      · exact ⟨_, rfl⟩
      rw [handleCreateSurvey_consumed ctx s sig token timeToExpire owner surveyId
        participantsLimit rewardAmount surveyHash amountToGasStation amt
        (ctx.tokenAddresses sym) ht]
      exact ⟨_, rfl⟩
    | false =>
      rw [if_neg (by simp)]
      simp only [executeNoToken]
      split
      · exact ⟨_, rfl⟩
      split
      · exact ⟨_, rfl⟩
      exact ⟨_, rfl⟩
  | cancel sig token timeToExpire surveyId =>
    simp only [Payload.theToken] at ht
    cases wt with
    | true =>
      rw [if_pos rfl]
      simp only [executeWithToken]
      split
      · exact ⟨_, rfl⟩
      split
      · exact ⟨_, rfl⟩
      split
      · exact ⟨_, rfl⟩
      exact ⟨_, rfl⟩
    | false =>
      rw [if_neg (by simp)]
      simp only [executeNoToken]
      split
      · exact ⟨_, rfl⟩
      split
      · exact ⟨_, rfl⟩
      obtain ⟨e, he⟩ := handleCancelSurvey_consumed ctx s sig token timeToExpire surveyId ht
      rw [he]
      exact ⟨_, rfl⟩
  | payRewards sig token timeToExpire surveyIds participantsEncoded =>
    simp only [Payload.theToken] at ht
    cases wt with
    | true =>
      rw [if_pos rfl]
      simp only [executeWithToken]
      split
      · exact ⟨_, rfl⟩
      split
      · exact ⟨_, rfl⟩
      split
      · exact ⟨_, rfl⟩
      exact ⟨_, rfl⟩
    | false =>
      rw [if_neg (by simp)]
      simp only [executeNoToken]
      split
      · exact ⟨_, rfl⟩
      split
      · exact ⟨_, rfl⟩
      obtain ⟨e, he⟩ :=
        handleRewardPayment_consumed ctx s sig token timeToExpire surveyIds participantsEncoded ht
      rw [he]
      exact ⟨_, rfl⟩

/-- C3: once a token is recorded as consumed, every later validation
attempt with it fails — `preAuthValidations` rejects it for any digest,
expiry and signature, and an envelope of any message kind carrying it
reverts leaving the state unchanged — and the consumed-token set only
grows under arbitrary further traces. -/
theorem consumed_token_always_fails (s : QState) (token : B32)
    (h : s.proofTokens token = true) :
    (∀ ctx m timeToExpire sig, ∃ e,
      preAuthValidations ctx s m token timeToExpire sig = .error e) ∧
    (∀ ctx env, Payload.theToken env.payload = token →
      ∃ e, applyEnvelope ctx s env = (s, [], some e)) ∧
    (∀ tr, (runTrace s tr).1.proofTokens token = true) := by
  refine ⟨?_, ?_, ?_⟩
  · intro ctx m timeToExpire sig
    by_cases hm : m = Digest.null
    · exact ⟨.invalidMessageHash, by simp [preAuthValidations, hm]⟩
    · exact ⟨.tokenAlreadyUsed, by simp [preAuthValidations, hm, h]⟩
  · intro ctx env hp
    exact applyEnvelope_consumed_fails ctx s env (by rw [hp]; exact h)
  · intro tr
    exact runTrace_proofTokens_mono token tr s h

theorem consumed_token_always_fails_witness :
    sUsed.proofTokens 11 = true ∧
    (∃ e, preAuthValidations ctx0 sUsed (Digest.cancelD 1 11 200 "x") 11 200 0 = .error e) ∧
    (∃ e, applyEnvelope ctx0 sUsed ⟨"agoric", "qstn", .cancel 0 11 200 "x", false, "", 0⟩
      = (sUsed, [], some e)) ∧
    (runTrace sUsed []).1.proofTokens 11 = true :=
  ⟨by decide,
   (consumed_token_always_fails sUsed 11 (by decide)).1 ctx0 (Digest.cancelD 1 11 200 "x") 200 0,
   (consumed_token_always_fails sUsed 11 (by decide)).2.1 ctx0
     ⟨"agoric", "qstn", .cancel 0 11 200 "x", false, "", 0⟩ (by decide),
   (consumed_token_always_fails sUsed 11 (by decide)).2.2 []⟩

theorem rewardLoop_fields : ∀ (items : List (String × Address)) (s s' : QState)
    (evs : List Event), rewardLoop s items = .ok (s', evs) → ∀ id,
    ((s'.surveys id).surveyCreator = (s.surveys id).surveyCreator ∧
     (s'.surveys id).participantsLimit = (s.surveys id).participantsLimit ∧
     (s'.surveys id).rewardAmount = (s.surveys id).rewardAmount ∧
     (s'.surveys id).rewardToken = (s.surveys id).rewardToken ∧
     (s'.surveys id).isCanceled = (s.surveys id).isCanceled) ∧
    (s.surveys id).participantsRewarded ≤ (s'.surveys id).participantsRewarded ∧
    ((s.surveys id).participantsRewarded ≤ (s.surveys id).participantsLimit →
      (s'.surveys id).participantsRewarded ≤ (s.surveys id).participantsLimit) ∧
    ((s.surveys id).participantsLimit ≤ (s.surveys id).participantsRewarded →
      (s'.surveys id).participantsRewarded = (s.surveys id).participantsRewarded) := by
  intro items
  induction items with
  | nil =>
    intro s s' evs h id
    simp only [rewardLoop, Except.ok.injEq, Prod.mk.injEq] at h
    rw [← h.1]
    exact ⟨⟨rfl, rfl, rfl, rfl, rfl⟩, le_refl _, fun hb => hb, fun _ => rfl⟩
  | cons hd tl ih =>
    intro s s' evs h id
    obtain ⟨sid, p⟩ := hd
    simp only [rewardLoop] at h
    split at h
    · exact Except.noConfusion h
    split at h
    · exact Except.noConfusion h
    split at h
    · exact Except.noConfusion h
    rename_i hcanc hlim hmem
    split at h
    · exact Except.noConfusion h
    · rename_i s2 evs2 heq
      simp only [Except.ok.injEq, Prod.mk.injEq] at h
      have hfacts := ih _ _ _ heq id
      rw [← h.1]
      by_cases hid : id = sid
      · subst hid
        simp only [if_pos rfl] at hfacts
        obtain ⟨⟨f1, f2, f3, f4, f5⟩, g1, g2, g3⟩ := hfacts
        have hlt : (s.surveys id).participantsRewarded < (s.surveys id).participantsLimit :=
          Nat.lt_of_not_le hlim
        refine ⟨⟨f1, f2, f3, f4, f5⟩, ?_, ?_, ?_⟩
        · exact le_trans (Nat.le_succ _) g1
        · intro _
          exact g2 hlt
        · intro hge
          exact absurd hlt (Nat.not_lt_of_le hge)
      · simp only [if_neg hid] at hfacts
        exact hfacts

theorem finCount_append (surveyId : String) (a b : List Event) :
    finCount surveyId (a ++ b) = finCount surveyId a + finCount surveyId b := by
  simp [finCount, List.filter_append]

theorem finCount_cons_ne (surveyId : String) (e : Event) (rest : List Event)
    (h : e ≠ Event.surveyFinished surveyId) :
    finCount surveyId (e :: rest) = finCount surveyId rest := by
  simp [finCount, List.filter_cons, h]

theorem finCount_cons_self (surveyId : String) (rest : List Event) :
    finCount surveyId (Event.surveyFinished surveyId :: rest)
      = finCount surveyId rest + 1 := by
  simp [finCount, List.filter_cons]

theorem executeWithToken_ledgerInv (ctx : Ctx) (s : QState) (sc sa : String)
    (pl : Payload) (sym : String) (amt : Nat) (s1 : QState) (evs : List Event)
    (h : executeWithToken ctx s sc sa pl sym amt = .ok (s1, evs)) (hs : LedgerInv s) :
    LedgerInv s1 := by
  simp only [executeWithToken] at h
  split at h
  · exact Except.noConfusion h
  split at h
  · exact Except.noConfusion h
  split at h
  · exact Except.noConfusion h
  split at h <;> try exact Except.noConfusion h
  split at h
  · exact Except.noConfusion h
  · rename_i s2 evs0 heq
    simp only [Except.ok.injEq, Prod.mk.injEq] at h
    obtain ⟨-, -, -, -, hs2, -⟩ := handleCreateSurvey_ok _ _ _ _ _ _ _ _ _ _ _ _ _ _ _ heq
    rw [← h.1, hs2]
    intro id
    simp only []
    split
    · exact Nat.zero_le _
    · exact hs id

theorem executeNoToken_ledgerInv (ctx : Ctx) (s : QState) (sc sa : String)
    (pl : Payload) (s1 : QState) (evs : List Event)
    (h : executeNoToken ctx s sc sa pl = .ok (s1, evs)) (hs : LedgerInv s) :
    LedgerInv s1 := by
  simp only [executeNoToken] at h
  split at h
  · exact Except.noConfusion h
  split at h
  · exact Except.noConfusion h
  split at h <;> try exact Except.noConfusion h
  · -- cancel arm
    split at h
    · exact Except.noConfusion h
    · rename_i s2 evs0 heq
      simp only [Except.ok.injEq, Prod.mk.injEq] at h
      obtain ⟨-, -, -, -, -, -, hs2, -⟩ := handleCancelSurvey_ok _ _ _ _ _ _ _ _ heq
      rw [← h.1, hs2]
      intro id
      simp only []
      split
      · rename_i hsid
        subst hsid
        exact hs id
      · exact hs id
  · -- pay-rewards arm
    split at h
    · exact Except.noConfusion h
    · rename_i s2 evs0 heq
      simp only [Except.ok.injEq, Prod.mk.injEq] at h
      obtain ⟨-, -, -, hloop⟩ := handleRewardPayment_ok _ _ _ _ _ _ _ _ _ heq
      rw [← h.1]
      intro id
      obtain ⟨⟨-, f2, -, -, -⟩, -, g2, -⟩ := rewardLoop_fields _ _ _ _ hloop id
      rw [f2]
      exact g2 (hs id)

theorem applyEnvelope_ledgerInv (ctx : Ctx) (s : QState) (env : Envelope) (hs : LedgerInv s) :
    LedgerInv (applyEnvelope ctx s env).1 := by
  rcases hr : (if env.withToken
    then executeWithToken ctx s env.sourceChain env.sourceAddress env.payload
      env.tokenSymbol env.amount
    else executeNoToken ctx s env.sourceChain env.sourceAddress env.payload) with e | p
  · rw [applyEnvelope_eq_error _ _ _ _ hr]
    exact hs
  · obtain ⟨s1, evs⟩ := p
    rw [applyEnvelope_eq_ok _ _ _ _ _ hr]
    by_cases hw : env.withToken
    · rw [if_pos hw] at hr
      exact executeWithToken_ledgerInv _ _ _ _ _ _ _ _ _ hr hs
    · rw [if_neg hw] at hr
      exact executeNoToken_ledgerInv _ _ _ _ _ _ _ hr hs

theorem runTrace_ledgerInv : ∀ (tr : List (Ctx × Envelope)) (s : QState), LedgerInv s →
    LedgerInv (runTrace s tr).1 := by
  intro tr
  induction tr with
  | nil => intro s hs; exact hs
  | cons p rest ih =>
    intro s hs
    simp only [runTrace]
    exact ih _ (applyEnvelope_ledgerInv _ _ _ hs)

/-- C4: in every state reachable from a fresh deployment by any sequence
of create, cancel and pay-rewards envelopes, every survey record satisfies
`participantsRewarded ≤ participantsLimit`. -/
theorem rewarded_le_limit_ledgerInvariant (m0 : Address → Bool) (gs : Address)
    (tr : List (Ctx × Envelope)) (id : String) :
    ((runTrace (startState m0 gs) tr).1.surveys id).participantsRewarded
      ≤ ((runTrace (startState m0 gs) tr).1.surveys id).participantsLimit :=
  runTrace_ledgerInv tr (startState m0 gs) (fun _ => Nat.le_refl 0) id

theorem rewardLoop_finCount : ∀ (items : List (String × Address)) (s s' : QState)
    (evs : List Event), rewardLoop s items = .ok (s', evs) → ∀ id,
    finCount id evs
      = (if (s.surveys id).participantsRewarded < (s.surveys id).participantsLimit ∧
          (s'.surveys id).participantsRewarded = (s.surveys id).participantsLimit
         then 1 else 0) := by
  intro items
  induction items with
  | nil =>
    intro s s' evs h id
    simp only [rewardLoop, Except.ok.injEq, Prod.mk.injEq] at h
    rw [← h.1, ← h.2]
    rw [if_neg (by omega)]
    rfl
  | cons hd tl ih =>
    intro s s' evs h id
    obtain ⟨sid, p⟩ := hd
    simp only [rewardLoop] at h
    split at h
    · exact Except.noConfusion h
    split at h
    · exact Except.noConfusion h
    split at h
    · exact Except.noConfusion h
    rename_i hcanc hlim hmem
    split at h
    · exact Except.noConfusion h
    rename_i s2 evs2 heq
    simp only [Except.ok.injEq, Prod.mk.injEq] at h
    rw [← h.1, ← h.2]
    rw [finCount_append, finCount_append]
    rw [finCount_cons_ne _ _ _ (fun hE => Event.noConfusion hE)]
    rw [finCount_cons_ne _ _ _ (fun hE => Event.noConfusion hE)]
    have hnil : finCount id ([] : List Event) = 0 := rfl
    rw [hnil]
    have hIH := ih _ _ _ heq id
    by_cases hid : id = sid
    · subst hid
      simp only [eq_self_iff_true, if_true] at hIH
      have hfacts := rewardLoop_fields _ _ _ _ heq id
      simp only [eq_self_iff_true, if_true] at hfacts
      obtain ⟨-, -, g3⟩ := hfacts.2
      have hlt : (s.surveys id).participantsRewarded < (s.surveys id).participantsLimit :=
        Nat.lt_of_not_le hlim
      by_cases hfin : (s.surveys id).participantsRewarded + 1
          = (s.surveys id).participantsLimit
      · rw [if_pos hfin, finCount_cons_self, hnil]
        have h2r : (s2.surveys id).participantsRewarded
            = (s.surveys id).participantsRewarded + 1 := g3 (by omega)
        rw [if_neg (by omega)] at hIH
        rw [hIH, if_pos (by constructor <;> omega)]
      · rw [if_neg hfin, hnil, hIH]
        by_cases hx : (s2.surveys id).participantsRewarded
            = (s.surveys id).participantsLimit
        · rw [if_pos (by exact ⟨by omega, hx⟩), if_pos (by exact ⟨hlt, hx⟩)]
        · rw [if_neg (by intro hc; exact hx hc.2), if_neg (by intro hc; exact hx hc.2)]
    · have hne : Event.surveyFinished sid ≠ Event.surveyFinished id := by
        intro hE
        injection hE with h1
        exact hid h1.symm
      have hhead : finCount id (if (s.surveys sid).participantsRewarded + 1
          = (s.surveys sid).participantsLimit then [Event.surveyFinished sid] else []) = 0 := by
        split
        · rw [finCount_cons_ne _ _ _ hne]
          rfl
        · rfl
      rw [hhead]
      simp only [if_neg hid] at hIH
      rw [hIH]
      omega

theorem executeWithToken_finish_step (ctx : Ctx) (s : QState) (sc sa : String)
    (pl : Payload) (sym : String) (amt : Nat) (s1 : QState) (evs : List Event)
    (h : executeWithToken ctx s sc sa pl sym amt = .ok (s1, evs))
    (hs : GoodState s) (hm : ctx.msgSender ≠ 0) :
    GoodState s1 ∧ ∀ id,
      finCount id evs
        = (if (s.surveys id).participantsRewarded < (s.surveys id).participantsLimit ∧
            (s1.surveys id).participantsRewarded = (s.surveys id).participantsLimit
           then 1 else 0) ∧
      (0 < (s.surveys id).participantsLimit →
        (s1.surveys id).participantsLimit = (s.surveys id).participantsLimit ∧
        ((s.surveys id).participantsLimit ≤ (s.surveys id).participantsRewarded →
          (s1.surveys id).participantsRewarded = (s.surveys id).participantsRewarded)) := by
  simp only [executeWithToken] at h
  split at h
  · exact Except.noConfusion h
  split at h
  · exact Except.noConfusion h
  split at h
  · exact Except.noConfusion h
  split at h <;> try exact Except.noConfusion h
  split at h
  · exact Except.noConfusion h
  · rename_i s2 evs0 heq
    simp only [Except.ok.injEq, Prod.mk.injEq] at h
    obtain ⟨-, -, hcr0, -, hs2, hevs0⟩ := handleCreateSurvey_ok _ _ _ _ _ _ _ _ _ _ _ _ _ _ _ heq
    rename_i hpl0 sig0 token0 exp0 owner0 surveyId0 limit0 reward0 shash0 gas0 hx0
    have hzero := (hs surveyId0).2 hcr0
    have hnewr : (s2.surveys surveyId0).participantsRewarded = 0 := by
      rw [hs2]; simp
    have hnewc : (s2.surveys surveyId0).surveyCreator = ctx.msgSender := by
      rw [hs2]; simp
    have hkeep : ∀ id, id ≠ surveyId0 → s2.surveys id = s.surveys id := by
      intro id hid
      rw [hs2]; simp [hid]
    have hev0 : ∀ idq, finCount idq (evs0 ++ [Event.executeCompleted 0]) = 0 := by
      intro idq
      rw [hevs0, finCount_append]
      rw [finCount_cons_ne _ _ _ (fun hE => Event.noConfusion hE)]
      rw [finCount_cons_ne _ _ _ (fun hE => Event.noConfusion hE)]
      rw [finCount_cons_ne _ _ _ (fun hE => Event.noConfusion hE)]
      rfl
    rw [← h.1, ← h.2]
    constructor
    · intro id
      by_cases hid : id = surveyId0
      · subst hid
        constructor
        · rw [hnewr]
          exact Nat.zero_le _
        · rw [hnewc]
          intro hz
          exact absurd hz hm
      · rw [hkeep id hid]
        exact hs id
    · intro id
      refine ⟨?_, ?_⟩
      · rw [hev0 id]
        by_cases hid : id = surveyId0
        · subst hid
          rw [hnewr, if_neg (by omega)]
        · rw [hkeep id hid, if_neg (by omega)]
      · intro hL
        by_cases hid : id = surveyId0
        · subst hid
          omega
        · rw [hkeep id hid]
          exact ⟨rfl, fun _ => rfl⟩

theorem executeNoToken_finish_step (ctx : Ctx) (s : QState) (sc sa : String)
    (pl : Payload) (s1 : QState) (evs : List Event)
    (h : executeNoToken ctx s sc sa pl = .ok (s1, evs))
    (hs : GoodState s) :
    GoodState s1 ∧ ∀ id,
      finCount id evs
        = (if (s.surveys id).participantsRewarded < (s.surveys id).participantsLimit ∧
            (s1.surveys id).participantsRewarded = (s.surveys id).participantsLimit
           then 1 else 0) ∧
      (0 < (s.surveys id).participantsLimit →
        (s1.surveys id).participantsLimit = (s.surveys id).participantsLimit ∧
        ((s.surveys id).participantsLimit ≤ (s.surveys id).participantsRewarded →
          (s1.surveys id).participantsRewarded = (s.surveys id).participantsRewarded)) := by
  simp only [executeNoToken] at h
  split at h
  · exact Except.noConfusion h
  split at h
  · exact Except.noConfusion h
  split at h <;> try exact Except.noConfusion h
  · -- cancel arm
    split at h
    · exact Except.noConfusion h
    · rename_i s2 evs0 heq
      simp only [Except.ok.injEq, Prod.mk.injEq] at h
      obtain ⟨-, -, -, -, -, -, hs2, hevs0⟩ := handleCancelSurvey_ok _ _ _ _ _ _ _ _ heq
      rename_i hpl0 sig0 token0 exp0 surveyId0 hx0
      have hc1 : (s2.surveys surveyId0).participantsRewarded
          = (s.surveys surveyId0).participantsRewarded := by rw [hs2]; simp
      have hc2 : (s2.surveys surveyId0).participantsLimit
          = (s.surveys surveyId0).participantsLimit := by rw [hs2]; simp
      have hc3 : (s2.surveys surveyId0).surveyCreator
          = (s.surveys surveyId0).surveyCreator := by rw [hs2]; simp
      have hkeep : ∀ id, id ≠ surveyId0 → s2.surveys id = s.surveys id := by
        intro id hid
        rw [hs2]; simp [hid]
      have hev0 : ∀ idq, finCount idq (evs0 ++ [Event.executeCompleted 1]) = 0 := by
        intro idq
        rw [hevs0, finCount_append]
        rw [finCount_cons_ne _ _ _ (fun hE => Event.noConfusion hE)]
        rw [finCount_cons_ne _ _ _ (fun hE => Event.noConfusion hE)]
        rw [finCount_cons_ne _ _ _ (fun hE => Event.noConfusion hE)]
        rfl
      rw [← h.1, ← h.2]
      constructor
      · intro id
        by_cases hid : id = surveyId0
        · subst hid
          refine ⟨by rw [hc1, hc2]; exact (hs id).1, ?_⟩
          rw [hc3, hc2, hc1]
          exact (hs id).2
        · rw [hkeep id hid]
          exact hs id
      · intro id
        by_cases hid : id = surveyId0
        · subst hid
          refine ⟨by rw [hev0 id, hc1, if_neg (by omega)], ?_⟩
          intro hL
          exact ⟨hc2, fun _ => hc1⟩
        · refine ⟨by rw [hev0 id, hkeep id hid, if_neg (by omega)], ?_⟩
          intro hL
          rw [hkeep id hid]
          exact ⟨rfl, fun _ => rfl⟩
  · -- pay-rewards arm
    split at h
    · exact Except.noConfusion h
    · rename_i s2 evs0 heq
      simp only [Except.ok.injEq, Prod.mk.injEq] at h
      obtain ⟨-, -, -, hloop⟩ := handleRewardPayment_ok _ _ _ _ _ _ _ _ _ heq
      have hfields : ∀ id,
          ((s2.surveys id).surveyCreator = (s.surveys id).surveyCreator ∧
           (s2.surveys id).participantsLimit = (s.surveys id).participantsLimit ∧
           (s2.surveys id).rewardAmount = (s.surveys id).rewardAmount ∧
           (s2.surveys id).rewardToken = (s.surveys id).rewardToken ∧
           (s2.surveys id).isCanceled = (s.surveys id).isCanceled) ∧
          (s.surveys id).participantsRewarded ≤ (s2.surveys id).participantsRewarded ∧
          ((s.surveys id).participantsRewarded ≤ (s.surveys id).participantsLimit →
            (s2.surveys id).participantsRewarded ≤ (s.surveys id).participantsLimit) ∧
          ((s.surveys id).participantsLimit ≤ (s.surveys id).participantsRewarded →
            (s2.surveys id).participantsRewarded = (s.surveys id).participantsRewarded) :=
        fun id => rewardLoop_fields _ _ _ _ hloop id
      have hcount : ∀ id, finCount id evs0
          = (if (s.surveys id).participantsRewarded < (s.surveys id).participantsLimit ∧
              (s2.surveys id).participantsRewarded = (s.surveys id).participantsLimit
             then 1 else 0) :=
        fun id => rewardLoop_finCount _ _ _ _ hloop id
      have hev2 : ∀ idq, finCount idq (evs0 ++ [Event.executeCompleted 2])
          = finCount idq evs0 := by
        intro idq
        rw [finCount_append, finCount_cons_ne _ _ _ (fun hE => Event.noConfusion hE)]
        rfl
      rw [← h.1, ← h.2]
      constructor
      · intro id
        obtain ⟨⟨f1, f2, -, -, -⟩, -, g2, g3⟩ := hfields id
        constructor
        · rw [f2]
          exact g2 (hs id).1
        · intro hz
          rw [f1] at hz
          obtain ⟨hL0, hr0⟩ := (hs id).2 hz
          refine ⟨by rw [f2, hL0], by rw [g3 (by omega), hr0]⟩
      · intro id
        obtain ⟨⟨-, f2, -, -, -⟩, -, -, g3⟩ := hfields id
        refine ⟨by rw [hev2 id, hcount id], ?_⟩
        intro hL
        exact ⟨f2, g3⟩

theorem applyEnvelope_finish_step (ctx : Ctx) (s : QState) (env : Envelope)
    (hs : GoodState s) (hm : ctx.msgSender ≠ 0) :
    GoodState (applyEnvelope ctx s env).1 ∧ ∀ id,
      finCount id (applyEnvelope ctx s env).2.1
        = (if (s.surveys id).participantsRewarded < (s.surveys id).participantsLimit ∧
            ((applyEnvelope ctx s env).1.surveys id).participantsRewarded
              = (s.surveys id).participantsLimit then 1 else 0) ∧
      (0 < (s.surveys id).participantsLimit →
        ((applyEnvelope ctx s env).1.surveys id).participantsLimit
          = (s.surveys id).participantsLimit ∧
        ((s.surveys id).participantsLimit ≤ (s.surveys id).participantsRewarded →
          ((applyEnvelope ctx s env).1.surveys id).participantsRewarded
            = (s.surveys id).participantsRewarded)) := by
  rcases hr : (if env.withToken
    then executeWithToken ctx s env.sourceChain env.sourceAddress env.payload
      env.tokenSymbol env.amount
    else executeNoToken ctx s env.sourceChain env.sourceAddress env.payload) with e | p
  · rw [applyEnvelope_eq_error _ _ _ _ hr]
    dsimp only
    refine ⟨hs, fun id => ⟨by rw [if_neg (by omega)]; rfl, fun _ => ⟨rfl, fun _ => rfl⟩⟩⟩
  · obtain ⟨s1, evs⟩ := p
    rw [applyEnvelope_eq_ok _ _ _ _ _ hr]
    by_cases hw : env.withToken
    · rw [if_pos hw] at hr
      exact executeWithToken_finish_step _ _ _ _ _ _ _ _ _ hr hs hm
    · rw [if_neg hw] at hr
      exact executeNoToken_finish_step _ _ _ _ _ _ _ hr hs

theorem runTrace_finish : ∀ (tr : List (Ctx × Envelope)) (s : QState),
    GoodState s → (∀ p ∈ tr, (p : Ctx × Envelope).1.msgSender ≠ 0) → ∀ id,
    finCount id (runTrace s tr).2 ≤ 1 ∧
    (0 < (s.surveys id).participantsLimit →
      (s.surveys id).participantsLimit ≤ (s.surveys id).participantsRewarded →
      finCount id (runTrace s tr).2 = 0) := by
  intro tr
  induction tr with
  | nil =>
    intro s hs htr id
    exact ⟨Nat.zero_le 1, fun _ _ => rfl⟩
  | cons p rest ih =>
    intro s hs htr id
    obtain ⟨ctx, env⟩ := p
    have hm : ctx.msgSender ≠ 0 := htr (ctx, env) (List.mem_cons_self _ _)
    have hrest : ∀ q ∈ rest, (q : Ctx × Envelope).1.msgSender ≠ 0 :=
      fun q hq => htr q (List.mem_cons_of_mem _ hq)
    obtain ⟨hgood1, hstep⟩ := applyEnvelope_finish_step ctx s env hs hm
    obtain ⟨hcf, hC⟩ := hstep id
    have hIH := ih (applyEnvelope ctx s env).1 hgood1 hrest id
    simp only [runTrace, finCount_append]
    constructor
    · by_cases hcond : (s.surveys id).participantsRewarded
          < (s.surveys id).participantsLimit ∧
          ((applyEnvelope ctx s env).1.surveys id).participantsRewarded
            = (s.surveys id).participantsLimit
      · rw [hcf, if_pos hcond]
        have hL : 0 < (s.surveys id).participantsLimit := by omega
        obtain ⟨hLkeep, -⟩ := hC hL
        have hrest0 : finCount id (runTrace (applyEnvelope ctx s env).1 rest).2 = 0 :=
          hIH.2 (by omega) (by omega)
        omega
      · rw [hcf, if_neg hcond]
        have := hIH.1
        omega
    · intro hL hge
      obtain ⟨hLkeep, hrkeep⟩ := hC hL
      have h1 : finCount id (applyEnvelope ctx s env).2.1 = 0 := by
        rw [hcf, if_neg (by omega)]
      have h2 : finCount id (runTrace (applyEnvelope ctx s env).1 rest).2 = 0 :=
        hIH.2 (by omega) (by rw [hLkeep, hrkeep hge]; omega)
      omega

theorem rewardLoop_reached_fails : ∀ (items : List (String × Address)) (s : QState)
    (id : String),
    (s.surveys id).participantsLimit ≤ (s.surveys id).participantsRewarded →
    (∃ p, (id, p) ∈ items) →
    ∃ e, rewardLoop s items = .error e := by
  intro items
  induction items with
  | nil =>
    intro s id _ hmem
    obtain ⟨p, hp⟩ := hmem
    cases hp
  | cons hd tl ih =>
    intro s id hge hmem
    obtain ⟨sid, q⟩ := hd
    simp only [rewardLoop]
    split
    · exact ⟨_, rfl⟩
    split
    · exact ⟨_, rfl⟩
    split
    · exact ⟨_, rfl⟩
    rename_i hcanc hlim hmemq
    by_cases hid : sid = id
    · subst hid
      exact absurd hge hlim
    · obtain ⟨p, hp⟩ := hmem
      have hptl : (id, p) ∈ tl := by
        rcases List.mem_cons.mp hp with heq2 | htl
        · exact absurd (congrArg Prod.fst heq2).symm hid
        · exact htl
      have hrec : ∀ (s3 : QState), s3.surveys id = s.surveys id →
          (s3.surveys id).participantsLimit ≤ (s3.surveys id).participantsRewarded →
          (∃ e, rewardLoop s3 tl = .error e) → True := fun _ _ _ _ => trivial
      obtain ⟨e, he⟩ := ih
        { s with
          surveys := fun i => if i = sid
            then { s.surveys sid with
              participantsRewarded := (s.surveys sid).participantsRewarded + 1 }
            else s.surveys i,
          surveysUsersRewarded := fun i a =>
            if i = sid then (if a = q then true else s.surveysUsersRewarded i a)
            else s.surveysUsersRewarded i a }
        id (by simpa [Ne.symm hid] using hge) ⟨p, hptl⟩
      rw [he]
      exact ⟨_, rfl⟩

theorem mem_zip_left : ∀ (ids : List String) (parts : List Address) (id : String),
    id ∈ ids → ids.length = parts.length → ∃ p, (id, p) ∈ ids.zip parts := by
  intro ids
  induction ids with
  | nil => intro parts id h; cases h
  | cons a tl ih =>
    intro parts id h hlen
    cases parts with
    | nil => simp at hlen
    | cons b tlp =>
      rcases List.mem_cons.mp h with rfl | hmem
      · exact ⟨b, by simp [List.zip]⟩
      · obtain ⟨p, hp⟩ := ih tlp id hmem (by simpa using hlen)
        exact ⟨p, by simp [List.zip]; right; simpa [List.zip] using hp⟩

theorem handleRewardPayment_reached_fails (ctx : Ctx) (s : QState) (sig : Nat)
    (token : B32) (timeToExpire : Nat) (surveyIds : List String)
    (participantsEncoded : List Address) (id : String)
    (hge : (s.surveys id).participantsLimit ≤ (s.surveys id).participantsRewarded)
    (hmem : id ∈ surveyIds) :
    ∃ e, handleRewardPayment ctx s sig token timeToExpire surveyIds participantsEncoded
      = .error e := by
  simp only [handleRewardPayment]
  split
  · exact ⟨_, rfl⟩
  rename_i hlen
  split
  · exact ⟨_, rfl⟩
  · rename_i signer s1 heq
    split
    · exact ⟨_, rfl⟩
    · obtain ⟨-, -, -, -, -, hst⟩ := preAuthValidations_ok _ _ _ _ _ _ _ _ heq
      subst hst
      obtain ⟨p, hp⟩ := mem_zip_left surveyIds participantsEncoded id hmem (by simpa using hlen)
      exact rewardLoop_reached_fails _ _ id hge ⟨p, hp⟩

/-- C9: the finished signal for a survey is emitted exactly once.  Along any
trace of envelopes from a fresh deployment (with non-zero callers, as on the
EVM) a `SurveyFinished id` event occurs at most once; an envelope emits it
exactly when its processing takes `participantsRewarded` from below
`participantsLimit` to equal it; and once the limit is reached, any later
pay-rewards attempt naming that survey fails. -/
theorem finished_emitted_exactly_once (m0 : Address → Bool) (gs : Address)
    (tr : List (Ctx × Envelope)) (id : String)
    (htr : ∀ p ∈ tr, (p : Ctx × Envelope).1.msgSender ≠ 0) :
    finCount id (runTrace (startState m0 gs) tr).2 ≤ 1 ∧
    (∀ ctx s env, GoodState s → ctx.msgSender ≠ 0 →
      finCount id (applyEnvelope ctx s env).2.1
        = (if (s.surveys id).participantsRewarded < (s.surveys id).participantsLimit ∧
            ((applyEnvelope ctx s env).1.surveys id).participantsRewarded
              = (s.surveys id).participantsLimit then 1 else 0)) ∧
    (∀ ctx s sig token timeToExpire surveyIds participantsEncoded,
      (s.surveys id).participantsLimit ≤ (s.surveys id).participantsRewarded →
      id ∈ surveyIds →
      ∃ e, handleRewardPayment ctx s sig token timeToExpire surveyIds
        participantsEncoded = .error e) := by
  refine ⟨?_, ?_, ?_⟩
  · have hgood : GoodState (startState m0 gs) :=
      fun _ => ⟨Nat.le_refl 0, fun _ => ⟨rfl, rfl⟩⟩
    exact (runTrace_finish tr (startState m0 gs) hgood htr id).1
  · intro ctx s env hs hm
    exact ((applyEnvelope_finish_step ctx s env hs hm).2 id).1
  · intro ctx s sig token timeToExpire surveyIds participantsEncoded hge hmem
    exact handleRewardPayment_reached_fails ctx s sig token timeToExpire
      surveyIds participantsEncoded id hge hmem

theorem finished_emitted_exactly_once_witness :
    finCount "s1" (runTrace (startState (fun _ => false) 3) []).2 ≤ 1 :=
  (finished_emitted_exactly_once (fun _ => false) 3 [] "s1" (by simp)).1

/-- C10: a successful create stores the calling `msg.sender` as the survey
creator — not the owner decoded from the payload, which enters only the
proof digest checked against the manager set.  Consequently a later cancel
by the decoded owner (when it is neither that `msg.sender` nor a manager)
fails the creator-or-manager check, and a successful cancel refunds
`msg.sender`, not the decoded owner. -/
theorem create_stores_msgSender_not_owner (ctx : Ctx) (s : QState) (sc sa : String)
    (sig : Nat) (token : B32) (timeToExpire : Nat) (owner : Address)
    (surveyId : String) (participantsLimit rewardAmount : Nat) (surveyHash : B32)
    (amountToGasStation : Nat) (tokenSymbol : String) (amount : Nat)
    (s1 : QState) (evs : List Event) (hm : ctx.msgSender ≠ 0)
    (hok : executeWithToken ctx s sc sa
      (.create sig token timeToExpire owner surveyId participantsLimit rewardAmount
        surveyHash amountToGasStation) tokenSymbol amount = .ok (s1, evs)) :
    (s1.surveys surveyId).surveyCreator = ctx.msgSender ∧
    s.managers (getSigner ctx (Digest.createD ctx.chainId token timeToExpire owner
      surveyId participantsLimit rewardAmount surveyHash amountToGasStation) sig) = true ∧
    (∀ ctx2 : Ctx, ctx2.msgSender = owner → owner ≠ ctx.msgSender →
      s1.managers owner = false → ∀ sig2 token2 exp2,
      handleCancelSurvey ctx2 s1 sig2 token2 exp2 surveyId
        = .error .onlyCreatorOrManager) ∧
    (∀ ctx2 sig2 token2 exp2 s2 evs2,
      handleCancelSurvey ctx2 s1 sig2 token2 exp2 surveyId = .ok (s2, evs2) →
      ∃ rt ramt, evs2 = [Event.transfer rt ctx.msgSender ramt,
        Event.surveyCanceled surveyId]) := by
  obtain ⟨-, -, -, evs0, hcr, -⟩ :=
    executeWithToken_create_ok _ _ _ _ _ _ _ _ _ _ _ _ _ _ _ _ _ hok
  obtain ⟨-, hmgr, -, -, hs1, -⟩ := handleCreateSurvey_ok _ _ _ _ _ _ _ _ _ _ _ _ _ _ _ hcr
  have hcreator : (s1.surveys surveyId).surveyCreator = ctx.msgSender := by
    rw [hs1]; simp
  have hcanc : (s1.surveys surveyId).isCanceled = false := by
    rw [hs1]; simp
  refine ⟨hcreator, hmgr, ?_, ?_⟩
  · intro ctx2 hctx2 howner hmgrf sig2 token2 exp2
    simp only [handleCancelSurvey]
    rw [if_neg (by rw [hcreator]; exact hm)]
    rw [if_neg (by simp [hcanc])]
    rw [if_pos ⟨by rw [hctx2, hcreator]; exact howner, by rw [hctx2]; exact hmgrf⟩]
  · intro ctx2 sig2 token2 exp2 s2 evs2 hok2
    obtain ⟨-, -, -, -, -, -, -, hevs2⟩ := handleCancelSurvey_ok _ _ _ _ _ _ _ _ hok2
    refine ⟨(s1.surveys surveyId).rewardToken,
      (s1.surveys surveyId).participantsLimit * (s1.surveys surveyId).rewardAmount
        - (s1.surveys surveyId).participantsRewarded * (s1.surveys surveyId).rewardAmount, ?_⟩
    rw [hevs2, hcreator]

theorem create_stores_msgSender_not_owner_witness :
    ∃ p : QState × List Event,
      executeWithToken ctx0 s0 "agoric" "qstn"
        (.create 0 11 200 4 "s1" 0 5 77 0) "T" 0 = .ok p ∧
      (p.1.surveys "s1").surveyCreator = 9 := by
  have hco : (executeWithToken ctx0 s0 "agoric" "qstn"
      (.create 0 11 200 4 "s1" 0 5 77 0) "T" 0).isOk = true := by decide
  cases hok : executeWithToken ctx0 s0 "agoric" "qstn"
      (.create 0 11 200 4 "s1" 0 5 77 0) "T" 0 with
  | error e => rw [hok] at hco; simp [Except.isOk, Except.toBool] at hco
  | ok p =>
    obtain ⟨s1, evs⟩ := p
    have hcreator := (create_stores_msgSender_not_owner ctx0 s0 "agoric" "qstn"
      0 11 200 4 "s1" 0 5 77 0 "T" 0 s1 evs (by decide) hok).1
    exact ⟨(s1, evs), rfl, hcreator⟩
